import Mathlib

/-!
Verification of the `AnonymizerDeAnonymizer` module (anonymizer_deanonymizer.py).

The development shallowly embeds the module:
* text is `String` (operations delegated to `List Char`),
* Python `str.replace` is embedded as `replaceAll`,
* the filesystem is a partial map from paths to file data,
* the Presidio analyzer is an external collaborator, modelled as a
  function parameter returning entity spans,
* randomness is an explicit stream `Nat → Nat` of draws.
-/

namespace AnonVerif

/-! ## Definitions: the shallow embedding of the module and its collaborators -/

def asciiLowercase : List Char := "abcdefghijklmnopqrstuvwxyz".data

def asciiUppercase : List Char := "ABCDEFGHIJKLMNOPQRSTUVWXYZ".data

/-- Python `string.ascii_letters`. -/
def asciiLetters : List Char := asciiLowercase ++ asciiUppercase

/-- Python `string.digits`. -/
def digitChars : List Char := "0123456789".data

/-- Population used by `_generate_unique_id`: `string.ascii_letters + string.digits`. -/
def alnumChars : List Char := asciiLetters ++ digitChars

/-- Fuel-driven scanner for `str.replace` with a non-empty pattern `o`:
scan left to right, replacing each leftmost non-overlapping occurrence of
`o` by `n`. Fuel `s.length` always suffices. -/
def raGo (o n : List Char) : Nat → List Char → List Char
  | 0, s => s
  | Nat.succ f, s =>
    match s with
    | [] => []
    | c :: rest =>
      if o.isPrefixOf (c :: rest) then n ++ raGo o n f ((c :: rest).drop o.length)
      else c :: raGo o n f rest

/-- Embedding of Python `s.replace(o, n)`. For an empty pattern Python
inserts `n` before every character and at the end. -/
def replaceAll (s o n : List Char) : List Char :=
  if o.isEmpty then List.foldr (fun c acc => n ++ c :: acc) n s
  else raGo o n s.length s

/-- No character of `a` occurs in `b`. -/
def charsDisjL (a b : List Char) : Prop := ∀ c, c ∈ a → c ∉ b

def consHead (c : Char) : List (List Char) → List (List Char)
  | [] => [[c]]
  | x :: xs => (c :: x) :: xs

/-- Fuel-driven greedy split of `s` on non-overlapping leftmost occurrences
of the pattern `o` (the chunks between the replaced occurrences). -/
def soGo (o : List Char) : Nat → List Char → List (List Char)
  | 0, s => [s]
  | Nat.succ f, s =>
    match s with
    | [] => [[]]
    | c :: rest =>
      if o.isPrefixOf (c :: rest) then [] :: soGo o f ((c :: rest).drop o.length)
      else consHead c (soGo o f rest)

def splitOnSub (s o : List Char) : List (List Char) := soGo o s.length s

/-- Join chunks with the separator `w` between consecutive chunks. -/
def joinWith (w : List Char) : List (List Char) → List Char
  | [] => []
  | [c] => c
  | c :: cs => c ++ w ++ joinWith w cs

/-- Embedding of Python `s.replace(o, n)` at `String` level. -/
def strReplace (s o n : String) : String := String.mk (replaceAll s.data o.data n.data)

/-- Boolean character-disjointness test on strings. -/
def charsDisjB (a b : String) : Bool := a.data.all (fun c => !(b.data.contains c))

/-- A detection result of the external analyzer (Presidio `RecognizerResult`).
The Python field `end` is spelled `stop` (`end` is a Lean keyword). -/
structure RecognizerResult where
  start : Nat
  stop : Nat
  entity_type : String
deriving DecidableEq

/-- Python `text_content[result.start:result.end]` (slicing clamps out-of-range). -/
def extractSpan (text : String) (r : RecognizerResult) : String :=
  String.mk ((text.data.drop r.start).take (r.stop - r.start))

/-- Contents of a file: plain text, or a tabular CSV (header row and data rows,
abstracting the `csv` module's serialization). -/
inductive FileData where
  | text : String → FileData
  | table : List String → List (List String) → FileData
deriving DecidableEq

/-- Paths are component lists; the filesystem maps paths to file contents. -/
abbrev FPath := List String

abbrev FS := FPath → Option FileData

def emptyFS : FS := fun _ => none

def fsWrite (fs : FS) (p : FPath) (d : FileData) : FS :=
  fun q => if q = p then some d else fs q

def fsErase (fs : FS) (p : FPath) : FS :=
  fun q => if q = p then none else fs q

def hasFile (fs : FS) (p : FPath) : Bool := (fs p).isSome

def fileName (p : FPath) : String := p.getLastD ""

/-- Write-success oracle meaning every file open-for-write succeeds. -/
def allW : FPath → Bool := fun _ => true

def splitCharList (sep : Char) : List Char → List (List Char)
  | [] => [[]]
  | c :: rest =>
    if c = sep then [] :: splitCharList sep rest else consHead c (splitCharList sep rest)

/-- Python `s.split(sep)` for a one-character separator (keeps empty fields). -/
def splitChar (sep : Char) (s : String) : List String :=
  (splitCharList sep s.data).map String.mk

/-- Python `'_'.join(parts)`. -/
def strJoinU : List String → String
  | [] => ""
  | [p] => p
  | p :: ps => p ++ "_" ++ strJoinU ps

def lastIdxOf (c : Char) : List Char → Option Nat
  | [] => none
  | x :: xs =>
    match lastIdxOf c xs with
    | some i => some (i + 1)
    | none => if x = c then some 0 else none

/-- `pathlib.Path.stem` of a file name: drop the final suffix; a leading or
trailing dot does not start a suffix. -/
def stemOfName (name : String) : String :=
  match lastIdxOf '.' name.data with
  | some i =>
    if 0 < i ∧ i + 1 < name.data.length then String.mk (name.data.take i) else name
  | none => name

/-- Conversion of an input string to a path (`pathlib.Path(s)`). -/
def strToPath (s : String) : FPath := splitChar '/' s

/-- Python truthiness of `name_opt or fallback` on an optional string:
`None` and the empty string both fall back. -/
def pyOrName (a : Option String) (b : String) : String :=
  match a with
  | some s => if s = "" then b else s
  | none => b

/-- Embedding of `_generate_unique_id` and `random.choices(pop, k)`: `k` draws
from population `pop`, driven by the explicit random stream `σ`. -/
def drawsFrom (σ : Nat → Nat) (start : Nat) (pop : List Char) (k : Nat) : List Char :=
  (List.range k).map (fun i => pop.getD (σ (start + i) % pop.length) 'a')

/-- `_generate_unique_id`: 10 random characters from letters+digits. -/
def generate_unique_id (σ : Nat → Nat) : String := String.mk (drawsFrom σ 0 alnumChars 10)

/-- The generic branch of `_generate_fake_data`: per character, a random
letter for a letter, a random digit for a digit, anything else kept.
The counter tracks how many random draws have been consumed. -/
def mirrorChars (σ : Nat → Nat) : Nat → List Char → List Char
  | _, [] => []
  | k, c :: rest =>
    if c.isAlpha then
      asciiLetters.getD (σ k % asciiLetters.length) 'a' :: mirrorChars σ (k + 1) rest
    else if c.isDigit then
      digitChars.getD (σ k % digitChars.length) '0' :: mirrorChars σ (k + 1) rest
    else c :: mirrorChars σ k rest

/-- Python `s.lower()` (ASCII case folding). -/
def lowerStr (s : String) : String := String.mk (s.data.map Char.toLower)

/-- Embedding of `_generate_fake_data`. -/
def generate_fake_data (σ : Nat → Nat) (original_data entity_type : String) : String :=
  if entity_type = "EMAIL_ADDRESS" then
    String.mk (drawsFrom σ 0 asciiLowercase 8 ++
      '@' :: (drawsFrom σ 8 asciiLowercase 6 ++ ".com".data))
  else if entity_type = "US_SSN" then
    String.mk (drawsFrom σ 0 digitChars 3 ++
      '-' :: (drawsFrom σ 3 digitChars 2 ++ '-' :: drawsFrom σ 5 digitChars 4))
  else if ¬ (lowerStr original_data = "email") then
    String.mk (mirrorChars σ 0 original_data.data)
  else original_data

/-- `"".join(c if c.isalnum() else "_" for c in name)`. -/
def sanitizeName (s : String) : String :=
  String.mk (s.data.map (fun c => if c.isAlphanum then c else '_'))

/-- The bounded-retry loop around `_generate_fake_data` (3 attempts).
`gen` is the fallible generation call, indexed by a global call counter;
the result carries the advanced counter. -/
def tryGenerate (gen : Nat → String → String → Option String) (ctr : Nat) (o et : String) :
    Nat × Option String :=
  match gen ctr o et with
  | some g => (ctr + 1, some g)
  | none =>
    match gen (ctr + 1) o et with
    | some g => (ctr + 2, some g)
    | none =>
      match gen (ctr + 2) o et with
      | some g => (ctr + 3, some g)
      | none => (ctr + 3, none)

/-- Processing of one analyzer result inside `anonymize_text`'s loop: skip the
span if its text is already mapped, otherwise attempt generation and, on
success, append to the session mapping (one CSV row per appended pair). -/
def spanStep (gen : Nat → String → String → Option String) (text : String)
    (st : Nat × List (String × String)) (r : RecognizerResult) :
    Nat × List (String × String) :=
  let original := extractSpan text r
  if (st.2.lookup original).isSome then st
  else
    match tryGenerate gen st.1 original r.entity_type with
    | (ctr', some g) => (ctr', st.2 ++ [(original, g)])
    | (ctr', none) => (ctr', st.2)

/-- The session mapping built by `anonymize_text` (insertion order; equal to
the CSV rows written). -/
def sessionPairs (gen : Nat → String → String → Option String) (text : String)
    (spans : List RecognizerResult) : List (String × String) :=
  (spans.foldl (spanStep gen text) (0, [])).2

def csvHeader : List String := ["sensitive_data_original", "sensitive_data_generated"]

inductive AErr where
  | readFailed : FPath → AErr
  | writeFailed : FPath → AErr
deriving DecidableEq

/-- Embedding of `anonymize_text`. Parameters model the collaborators:
`analyze` the Presidio analyzer, `gen` the (fallible) fake-data generation
call, `σid` the random stream for the session token, `ts` the timestamp
string, and `W` the open-for-write success oracle. -/
def anonymize (analyze : String → List RecognizerResult)
    (gen : Nat → String → String → Option String)
    (σid : Nat → Nat) (ts : String) (W : FPath → Bool)
    (fs : FS) (input_content : String) (output_base_directory : FPath)
    (original_file_name_for_output : Option String) :
    FS × Except AErr (FPath × FPath) :=
  let uid := generate_unique_id σid
  let outDir := output_base_directory ++ ["anonymization_" ++ ts ++ "_" ++ uid]
  let inPath := strToPath input_content
  match (if hasFile fs inPath then
      match fs inPath with
      | some (.text t) =>
        some (t, pyOrName original_file_name_for_output (stemOfName (fileName inPath)))
      | _ => none
    else
      some (input_content,
        pyOrName original_file_name_for_output ("no_filename_provided_" ++ uid))) with
  | none => (fs, .error (.readFailed inPath))
  | some (text_content, rawName) =>
    let original_file_name := sanitizeName rawName
    let analyzer_results := analyze text_content
    let csvPath := outDir ++ ["sensitive_data_" ++ original_file_name ++ "_" ++ uid ++ ".csv"]
    if W csvPath then
      let pairs := sessionPairs gen text_content analyzer_results
      let fs1 := fsWrite fs csvPath (.table csvHeader (pairs.map (fun p => [p.1, p.2])))
      let anonymized_text := pairs.foldl (fun t p => strReplace t p.1 p.2) text_content
      let outPath := outDir ++ ["anonymized_" ++ original_file_name ++ "_" ++ uid ++ ".txt"]
      if W outPath then
        (fsWrite fs1 outPath (.text anonymized_text), .ok (outPath, csvPath))
      else (fs1, .error (.writeFailed outPath))
    else (fs, .error (.writeFailed csvPath))

inductive DErr where
  | fileNotFound : FPath → DErr
  | badCsv : FPath → DErr
  | readFailed : FPath → DErr
deriving DecidableEq

deriving instance DecidableEq for Except

/-- `deanonymize_text`'s parse of the anonymized file's stem: splitting on
underscores, everything between the first segment and the last (the token),
rejoined with underscores, is the base name. -/
def parseStem (p : FPath) : String × String :=
  let parts := splitChar '_' (stemOfName (fileName p))
  (strJoinU ((parts.drop 1).dropLast), parts.getLastD "")

/-- The mapping-file path `deanonymize_text` reconstructs for an anonymized
file: `sensitive_data_<base_name>_<token>.csv` beside the input file. -/
def mappingPathOf (p : FPath) : FPath :=
  p.dropLast ++ ["sensitive_data_" ++ (parseStem p).1 ++ "_" ++ (parseStem p).2 ++ ".csv"]

def colIdx (name : String) : List String → Option Nat
  | [] => none
  | h :: hs => if h = name then some 0 else (colIdx name hs).map (· + 1)

/-- Python-dict update: assigning an existing key keeps its position,
a new key is appended. -/
def dictUpsert (m : List (String × String)) (k v : String) : List (String × String) :=
  if (m.lookup k).isSome then m.map (fun p => if p.1 = k then (k, v) else p)
  else m ++ [(k, v)]

/-- `csv.DictReader`-style load of the mapping file, building the
generated→original dictionary (later rows overwrite earlier on collision). -/
def readCsvPairs (d : FileData) : Option (List (String × String)) :=
  match d with
  | .text _ => none
  | .table hdr rows =>
    match colIdx "sensitive_data_original" hdr, colIdx "sensitive_data_generated" hdr with
    | some i, some j =>
      some (rows.foldl (fun m row => dictUpsert m (row.getD j "") (row.getD i "")) [])
    | _, _ => none

/-- Embedding of `deanonymize_text`. -/
def deanonymize (fs : FS) (anonymized_file_path : FPath)
    (output_base_directory : FPath) : FS × Except DErr FPath :=
  let _output_base_path := output_base_directory
  let p := anonymized_file_path
  let original_file_name := (parseStem p).1
  let uid := (parseStem p).2
  let csvPath := mappingPathOf p
  match fs csvPath with
  | none => (fs, .error (.fileNotFound csvPath))
  | some csvData =>
    match readCsvPairs csvData with
    | none => (fs, .error (.badCsv csvPath))
    | some generated_to_original_map =>
      match fs p with
      | some (.text text_content) =>
        let deanonymized_text :=
          generated_to_original_map.foldl (fun t q => strReplace t q.1 q.2) text_content
        let outPath :=
          p.dropLast ++ ["deanonymized_" ++ original_file_name ++ "_" ++ uid ++ ".txt"]
        (fsErase (fsWrite fs outPath (.text deanonymized_text)) csvPath, .ok outPath)
      | _ => (fs, .error (.readFailed p))

/-- The per-session output directory `anonymization_<timestamp>_<token>`. -/
def outDirOf (dir : FPath) (ts uid : String) : FPath :=
  dir ++ ["anonymization_" ++ ts ++ "_" ++ uid]

def anonPathOf (dir : FPath) (ts base uid : String) : FPath :=
  outDirOf dir ts uid ++ ["anonymized_" ++ base ++ "_" ++ uid ++ ".txt"]

def csvPathOf (dir : FPath) (ts base uid : String) : FPath :=
  outDirOf dir ts uid ++ ["sensitive_data_" ++ base ++ "_" ++ uid ++ ".csv"]

/-- Distinct detected original values in first-occurrence order (the keys of
the session mapping when generation always succeeds). -/
def firstDedup (l : List String) : List String :=
  l.foldl (fun acc o => if o ∈ acc then acc else acc ++ [o]) []

/-- `a` occurs as a contiguous substring of `b`. -/
def isSubstr (a : List Char) : List Char → Bool
  | [] => a.isEmpty
  | c :: rest => a.isPrefixOf (c :: rest) || isSubstr a rest

/-- No value in the list is a (non-equal) substring of another. -/
def noSubOverlap (l : List String) : Bool :=
  l.all (fun a => l.all (fun b => a == b || !(isSubstr a.data b.data)))

/-- Pairwise character-disjointness of a list of strings. -/
def pwDisjB : List String → Bool
  | [] => true
  | g :: rest => rest.all (fun g' => charsDisjB g g') && pwDisjB rest

/-- The regex `^[a-z]{8}@[a-z]{6}\.com$` as a decidable check. -/
def isEmailFormat (s : String) : Bool :=
  s.data.length == 19 && (s.data.take 8).all Char.isLower &&
    s.data.getD 8 ' ' == '@' && ((s.data.drop 9).take 6).all Char.isLower &&
    s.data.drop 15 == ".com".data

/-- The regex `^\d{3}-\d{2}-\d{4}$` as a decidable check. -/
def isSSNFormat (s : String) : Bool :=
  s.data.length == 11 && (s.data.take 3).all Char.isDigit &&
    s.data.getD 3 ' ' == '-' && ((s.data.drop 4).take 2).all Char.isDigit &&
    s.data.getD 6 ' ' == '-' && ((s.data.drop 7).take 4).all Char.isDigit

/-- Trimming of surrounding whitespace (Python `str.strip()`). -/
def trimWs (s : String) : String :=
  String.mk (((s.data.dropWhile Char.isWhitespace).reverse.dropWhile
    Char.isWhitespace).reverse)

/-- A directory holding a well-formed anonymized file and its mapping file. -/
def fsEx : FS := fun p =>
  if p = ["d", "anonymized_b_t.txt"] then some (.text "xy")
  else if p = ["d", "sensitive_data_b_t.csv"] then
    some (.table ["sensitive_data_original", "sensitive_data_generated"] [["o", "g"]])
  else none

/-! ## Theorems -/

lemma raGo_fuel (o n : List Char) (ho : o ≠ []) :
    ∀ f₁ f₂ s, s.length ≤ f₁ → s.length ≤ f₂ → raGo o n f₁ s = raGo o n f₂ s := by
  intro f₁
  induction f₁ with
  | zero =>
    intro f₂ s h1 _
    have hs : s = [] := List.eq_nil_of_length_eq_zero (Nat.le_zero.mp h1)
    subst hs
    cases f₂ <;> rfl
  | succ f ih =>
    intro f₂ s h1 h2
    cases s with
    | nil => cases f₂ <;> rfl
    | cons c rest =>
      cases f₂ with
      | zero => simp at h2
      | succ f₂' =>
        have holen : 1 ≤ o.length := by
          cases o with
          | nil => exact absurd rfl ho
          | cons a as => simp
        simp only [raGo]
        by_cases hp : o.isPrefixOf (c :: rest) = true
        · rw [if_pos hp, if_pos hp]
          congr 1
          apply ih
          · rw [List.length_drop]
            simp only [List.length_cons] at h1 ⊢
            omega
          · rw [List.length_drop]
            simp only [List.length_cons] at h2 ⊢
            omega
        · rw [if_neg hp, if_neg hp]
          congr 1
          apply ih
          · simp only [List.length_cons] at h1; omega
          · simp only [List.length_cons] at h2; omega

lemma isPrefixOf_ex {o s : List Char} :
    o.isPrefixOf s = true ↔ ∃ t, s = o ++ t := by
  induction o generalizing s with
  | nil => simp [List.isPrefixOf]
  | cons a as ih =>
    cases s with
    | nil => simp [List.isPrefixOf]
    | cons c rest =>
      simp only [List.isPrefixOf, Bool.and_eq_true, beq_iff_eq, List.cons_append,
        List.cons.injEq]
      rw [ih]
      constructor
      · rintro ⟨rfl, t, rfl⟩
        exact ⟨t, rfl, rfl⟩
      · rintro ⟨t, rfl, rfl⟩
        exact ⟨rfl, t, rfl⟩

lemma isPrefixOf_append_self (o t : List Char) : o.isPrefixOf (o ++ t) = true :=
  isPrefixOf_ex.mpr ⟨t, rfl⟩

lemma isPrefixOf_nil {o : List Char} (ho : o ≠ []) : o.isPrefixOf ([] : List Char) = false := by
  cases o with
  | nil => exact absurd rfl ho
  | cons a as => rfl

lemma replaceAll_nil {o : List Char} (n : List Char) (ho : o ≠ []) :
    replaceAll [] o n = [] := by
  have : o.isEmpty = false := by cases o with
    | nil => exact absurd rfl ho
    | cons a as => rfl
  simp [replaceAll, this, raGo]

lemma replaceAll_pos {o s : List Char} (n : List Char) (ho : o ≠ [])
    (hp : o.isPrefixOf s = true) :
    replaceAll s o n = n ++ replaceAll (s.drop o.length) o n := by
  have hoe : o.isEmpty = false := by cases o with
    | nil => exact absurd rfl ho
    | cons a as => rfl
  have holen : 1 ≤ o.length := by cases o with
    | nil => exact absurd rfl ho
    | cons a as => simp
  cases s with
  | nil =>
    rw [isPrefixOf_nil ho] at hp
    exact absurd hp (by simp)
  | cons c rest =>
    simp only [replaceAll, hoe, Bool.false_eq_true, if_false, List.length_cons]
    conv_lhs => rw [show rest.length + 1 = Nat.succ rest.length from rfl]
    rw [raGo, if_pos hp]
    congr 1
    apply raGo_fuel o n ho
    · rw [List.length_drop]
      simp only [List.length_cons]
      omega
    · exact le_rfl

lemma replaceAll_neg {o : List Char} {c : Char} {rest : List Char} (n : List Char)
    (hp : ¬ o.isPrefixOf (c :: rest) = true) :
    replaceAll (c :: rest) o n = c :: replaceAll rest o n := by
  have ho : o ≠ [] := by
    intro h
    subst h
    exact hp (by simp [List.isPrefixOf])
  have hoe : o.isEmpty = false := by cases o with
    | nil => exact absurd rfl ho
    | cons a as => rfl
  simp only [replaceAll, hoe, Bool.false_eq_true, if_false, List.length_cons]
  conv_lhs => rw [show rest.length + 1 = Nat.succ rest.length from rfl]
  rw [raGo, if_neg hp]

lemma charsDisjL_symm {a b : List Char} (h : charsDisjL a b) : charsDisjL b a :=
  fun c hcb hca => h c hca hcb

lemma charsDisjL_of_sub_left {a a' b : List Char} (h : charsDisjL a b)
    (hsub : ∀ c, c ∈ a' → c ∈ a) : charsDisjL a' b :=
  fun c hc => h c (hsub c hc)

lemma charsDisjL_of_sub_right {a b b' : List Char} (h : charsDisjL a b)
    (hsub : ∀ c, c ∈ b' → c ∈ b) : charsDisjL a b' :=
  fun c hc hb' => h c hc (hsub c hb')

lemma charsDisjL_ne {a b : List Char} (h : charsDisjL a b) (ha : a ≠ []) : a ≠ b := by
  intro hab
  cases a with
  | nil => exact ha rfl
  | cons c rest =>
    subst hab
    exact h c (by simp) (by simp)

/-- The scan emits unchanged any leading block `w` sharing no character with
the pattern `o`. -/
lemma replaceAll_pass {o : List Char} (n : List Char) (ho : o ≠ []) :
    ∀ (w b : List Char), charsDisjL o w →
      replaceAll (w ++ b) o n = w ++ replaceAll b o n := by
  intro w
  induction w with
  | nil => intro b _; simp
  | cons c w' ih =>
    intro b hdisj
    have hp : ¬ o.isPrefixOf (c :: (w' ++ b)) = true := by
      intro hp
      obtain ⟨t, ht⟩ := isPrefixOf_ex.mp hp
      cases o with
      | nil => exact ho rfl
      | cons o₀ os =>
        simp only [List.cons_append, List.cons.injEq] at ht
        exact hdisj o₀ (by simp) (by simp [ht.1])
    rw [List.cons_append, replaceAll_neg n hp,
      ih b (charsDisjL_of_sub_right hdisj (fun x hx => List.mem_cons_of_mem c hx))]
    simp

/-- With the pattern entirely disjoint from the text, replacement is the identity. -/
lemma replaceAll_id {o : List Char} (n : List Char) (ho : o ≠ []) (s : List Char)
    (hdisj : charsDisjL o s) : replaceAll s o n = s := by
  have := replaceAll_pass n ho s [] hdisj
  simpa [replaceAll_nil n ho] using this

/-- A pattern disjoint from a non-empty wall `w` cannot match across the wall:
if it matches at the start of `a ++ w ++ b` it already matches at the start of `a`. -/
lemma isPrefixOf_wall {o : List Char} {w : List Char} (hw : w ≠ [])
    (hdisj : charsDisjL o w) :
    ∀ (a b : List Char), o.isPrefixOf (a ++ w ++ b) = true → o.isPrefixOf a = true := by
  intro a
  induction a generalizing o with
  | nil =>
    intro b hp
    cases o with
    | nil => rfl
    | cons o₀ os =>
      obtain ⟨t, ht⟩ := isPrefixOf_ex.mp hp
      cases w with
      | nil => exact absurd rfl hw
      | cons w₀ w' =>
        simp only [List.nil_append, List.cons_append, List.cons.injEq] at ht
        exact absurd (by simp [← ht.1] : o₀ ∈ w₀ :: w') (hdisj o₀ (by simp))
  | cons c a' ih =>
    intro b hp
    cases o with
    | nil => rfl
    | cons o₀ os =>
      obtain ⟨t, ht⟩ := isPrefixOf_ex.mp hp
      simp only [List.cons_append, List.append_assoc, List.cons.injEq] at ht
      obtain ⟨rfl, ht2⟩ := ht
      have hos : os.isPrefixOf (a' ++ w ++ b) = true :=
        isPrefixOf_ex.mpr ⟨t, by rw [List.append_assoc]; exact ht2⟩
      have : os.isPrefixOf a' = true :=
        ih (charsDisjL_of_sub_left hdisj (by intro x hx; simp [hx])) b hos
      simp [List.isPrefixOf, this]

lemma isPrefixOf_append_of_isPrefixOf {o a : List Char} (x : List Char)
    (h : o.isPrefixOf a = true) : o.isPrefixOf (a ++ x) = true := by
  obtain ⟨t, rfl⟩ := isPrefixOf_ex.mp h
  exact isPrefixOf_ex.mpr ⟨t ++ x, by simp⟩

/-- Wall-split: replacement distributes over a non-empty wall `w` disjoint
from the pattern. -/
lemma replaceAll_wall {o : List Char} (n : List Char) (ho : o ≠ []) {w : List Char}
    (hw : w ≠ []) (hdisj : charsDisjL o w) :
    ∀ (k : Nat) (a : List Char), a.length ≤ k → ∀ b,
      replaceAll (a ++ w ++ b) o n = replaceAll a o n ++ w ++ replaceAll b o n := by
  intro k
  induction k with
  | zero =>
    intro a ha b
    have : a = [] := List.eq_nil_of_length_eq_zero (Nat.le_zero.mp ha)
    subst this
    simp [replaceAll_nil n ho, replaceAll_pass n ho w b hdisj]
  | succ k ih =>
    intro a ha b
    by_cases hp : o.isPrefixOf (a ++ w ++ b) = true
    · have hpa : o.isPrefixOf a = true := isPrefixOf_wall hw hdisj a b hp
      have holen : 1 ≤ o.length := by cases o with
        | nil => exact absurd rfl ho
        | cons x xs => simp
      have hlen : o.length ≤ a.length := by
        obtain ⟨t, rfl⟩ := isPrefixOf_ex.mp hpa
        simp
      rw [replaceAll_pos n ho hp, replaceAll_pos n ho hpa]
      have hdrop : (a ++ w ++ b).drop o.length = a.drop o.length ++ w ++ b := by
        rw [List.append_assoc, List.drop_append_of_le_length hlen, List.append_assoc]
      rw [hdrop, ih (a.drop o.length) (by rw [List.length_drop]; omega) b]
      simp
    · cases a with
      | nil =>
        simp only [List.nil_append]
        rw [replaceAll_pass n ho w b hdisj, replaceAll_nil n ho]
        rfl
      | cons c a' =>
        have hpa : ¬ o.isPrefixOf (c :: a') = true := by
          intro h
          exact hp (by
            have := isPrefixOf_append_of_isPrefixOf (w ++ b) h
            simpa [List.append_assoc] using this)
        have : (c :: a') ++ w ++ b = c :: (a' ++ w ++ b) := by simp
        rw [this, replaceAll_neg n (by
          intro h
          exact hp (by simpa [List.append_assoc] using h : o.isPrefixOf ((c :: a') ++ w ++ b) = true)),
          replaceAll_neg n hpa]
        rw [ih a' (by simp only [List.length_cons] at ha; omega) b]
        simp

lemma joinWith_cons₂ (w c : List Char) {cs : List (List Char)} (h : cs ≠ []) :
    joinWith w (c :: cs) = c ++ w ++ joinWith w cs := by
  cases cs with
  | nil => exact absurd rfl h
  | cons d ds => rfl

lemma joinWith_consHead (w : List Char) (c : Char) {l : List (List Char)} (h : l ≠ []) :
    joinWith w (consHead c l) = c :: joinWith w l := by
  cases l with
  | nil => exact absurd rfl h
  | cons x xs =>
    cases xs with
    | nil => rfl
    | cons y ys => rfl

lemma soGo_fuel (o : List Char) (ho : o ≠ []) :
    ∀ f₁ f₂ s, s.length ≤ f₁ → s.length ≤ f₂ → soGo o f₁ s = soGo o f₂ s := by
  intro f₁
  induction f₁ with
  | zero =>
    intro f₂ s h1 _
    have hs : s = [] := List.eq_nil_of_length_eq_zero (Nat.le_zero.mp h1)
    subst hs
    cases f₂ <;> rfl
  | succ f ih =>
    intro f₂ s h1 h2
    cases s with
    | nil => cases f₂ <;> rfl
    | cons c rest =>
      cases f₂ with
      | zero => simp at h2
      | succ f₂' =>
        have holen : 1 ≤ o.length := by cases o with
          | nil => exact absurd rfl ho
          | cons a as => simp
        simp only [soGo]
        by_cases hp : o.isPrefixOf (c :: rest) = true
        · rw [if_pos hp, if_pos hp]
          congr 1
          apply ih
          · rw [List.length_drop]
            simp only [List.length_cons] at h1 ⊢
            omega
          · rw [List.length_drop]
            simp only [List.length_cons] at h2 ⊢
            omega
        · rw [if_neg hp, if_neg hp]
          congr 1
          apply ih
          · simp only [List.length_cons] at h1; omega
          · simp only [List.length_cons] at h2; omega

lemma splitOnSub_nil (o : List Char) : splitOnSub [] o = [[]] := rfl

lemma splitOnSub_pos {o s : List Char} (ho : o ≠ []) (hp : o.isPrefixOf s = true) :
    splitOnSub s o = [] :: splitOnSub (s.drop o.length) o := by
  have holen : 1 ≤ o.length := by cases o with
    | nil => exact absurd rfl ho
    | cons x xs => simp
  cases s with
  | nil =>
    rw [isPrefixOf_nil ho] at hp
    exact absurd hp (by simp)
  | cons c rest =>
    simp only [splitOnSub, List.length_cons]
    conv_lhs => rw [show rest.length + 1 = Nat.succ rest.length from rfl]
    rw [soGo, if_pos hp]
    congr 1
    apply soGo_fuel o ho
    · rw [List.length_drop]
      simp only [List.length_cons]
      omega
    · exact le_rfl

lemma splitOnSub_neg {o : List Char} {c : Char} {rest : List Char}
    (hp : ¬ o.isPrefixOf (c :: rest) = true) :
    splitOnSub (c :: rest) o = consHead c (splitOnSub rest o) := by
  simp only [splitOnSub, List.length_cons]
  conv_lhs => rw [show rest.length + 1 = Nat.succ rest.length from rfl]
  rw [soGo, if_neg hp]

lemma soGo_ne_nil (o : List Char) : ∀ f s, soGo o f s ≠ [] := by
  intro f
  induction f with
  | zero => intro s; simp [soGo]
  | succ f ih =>
    intro s
    cases s with
    | nil => simp [soGo]
    | cons c rest =>
      simp only [soGo]
      by_cases hp : o.isPrefixOf (c :: rest) = true
      · rw [if_pos hp]; simp
      · rw [if_neg hp]
        cases h : soGo o f rest with
        | nil => exact absurd h (ih rest)
        | cons x xs => simp [consHead]

lemma splitOnSub_ne_nil (s o : List Char) : splitOnSub s o ≠ [] := soGo_ne_nil o s.length s

/-- Rejoining the chunks with the pattern restores the original text. -/
lemma joinWith_splitOnSub {o : List Char} (ho : o ≠ []) :
    ∀ (k : Nat) (s : List Char), s.length ≤ k → joinWith o (splitOnSub s o) = s := by
  intro k
  induction k with
  | zero =>
    intro s hs
    have : s = [] := List.eq_nil_of_length_eq_zero (Nat.le_zero.mp hs)
    subst this
    rfl
  | succ k ih =>
    intro s hs
    have holen : 1 ≤ o.length := by cases o with
      | nil => exact absurd rfl ho
      | cons x xs => simp
    by_cases hp : o.isPrefixOf s = true
    · obtain ⟨t, rfl⟩ := isPrefixOf_ex.mp hp
      rw [splitOnSub_pos ho hp, List.drop_left]
      rw [joinWith_cons₂ o [] (splitOnSub_ne_nil t o)]
      rw [ih t (by simp only [List.length_append] at hs; omega)]
      simp
    · cases s with
      | nil => rfl
      | cons c rest =>
        rw [splitOnSub_neg hp, joinWith_consHead o c (splitOnSub_ne_nil rest o)]
        rw [ih rest (by simp only [List.length_cons] at hs; omega)]

/-- `str.replace` is: split on the pattern, join with the replacement. -/
lemma replaceAll_eq_join {o : List Char} (n : List Char) (ho : o ≠ []) :
    ∀ (k : Nat) (s : List Char), s.length ≤ k →
      replaceAll s o n = joinWith n (splitOnSub s o) := by
  intro k
  induction k with
  | zero =>
    intro s hs
    have : s = [] := List.eq_nil_of_length_eq_zero (Nat.le_zero.mp hs)
    subst this
    rw [replaceAll_nil n ho]
    rfl
  | succ k ih =>
    intro s hs
    have holen : 1 ≤ o.length := by cases o with
      | nil => exact absurd rfl ho
      | cons x xs => simp
    by_cases hp : o.isPrefixOf s = true
    · rw [replaceAll_pos n ho hp, splitOnSub_pos ho hp]
      rw [joinWith_cons₂ n [] (splitOnSub_ne_nil (s.drop o.length) o)]
      have hdlen : (s.drop o.length).length ≤ k := by
        rw [List.length_drop]
        obtain ⟨t, rfl⟩ := isPrefixOf_ex.mp hp
        simp only [List.length_append] at hs ⊢
        omega
      rw [ih (s.drop o.length) hdlen]
      simp
    · cases s with
      | nil =>
        rw [replaceAll_nil n ho]
        rfl
      | cons c rest =>
        rw [replaceAll_neg n hp, splitOnSub_neg hp,
          joinWith_consHead n c (splitOnSub_ne_nil rest o)]
        rw [ih rest (by simp only [List.length_cons] at hs; omega)]

/-- Every character of every chunk of the split occurs in the source text. -/
lemma splitOnSub_chars {o : List Char} (ho : o ≠ []) :
    ∀ (k : Nat) (s : List Char), s.length ≤ k →
      ∀ c ∈ splitOnSub s o, ∀ ch ∈ c, ch ∈ s := by
  intro k
  induction k with
  | zero =>
    intro s hs c hc ch hch
    have : s = [] := List.eq_nil_of_length_eq_zero (Nat.le_zero.mp hs)
    subst this
    rw [splitOnSub_nil] at hc
    simp at hc
    subst hc
    simp at hch
  | succ k ih =>
    intro s hs c hc ch hch
    have holen : 1 ≤ o.length := by cases o with
      | nil => exact absurd rfl ho
      | cons x xs => simp
    by_cases hp : o.isPrefixOf s = true
    · rw [splitOnSub_pos ho hp] at hc
      rcases List.mem_cons.mp hc with h | h
      · subst h; simp at hch
      · have hdlen : (s.drop o.length).length ≤ k := by
          rw [List.length_drop]
          obtain ⟨t, rfl⟩ := isPrefixOf_ex.mp hp
          simp only [List.length_append] at hs ⊢
          omega
        have := ih (s.drop o.length) hdlen c h ch hch
        exact List.mem_of_mem_drop this
    · cases s with
      | nil =>
        rw [splitOnSub_nil] at hc
        simp at hc
        subst hc
        simp at hch
      | cons c₀ rest =>
        rw [splitOnSub_neg hp] at hc
        have hrest : rest.length ≤ k := by simp only [List.length_cons] at hs; omega
        cases hsp : splitOnSub rest o with
        | nil => exact absurd hsp (splitOnSub_ne_nil rest o)
        | cons x xs =>
          rw [hsp] at hc
          simp only [consHead] at hc
          rcases List.mem_cons.mp hc with h | h
          · subst h
            rcases List.mem_cons.mp hch with h' | h'
            · simp [h']
            · have := ih rest hrest x (by rw [hsp]; simp) ch h'
              simp [this]
          · have := ih rest hrest c (by rw [hsp]; simp [h]) ch hch
            simp [this]

/-- Replacement distributes over chunks joined by a wall disjoint from the
pattern. -/
lemma replaceAll_over_join {p : List Char} (r : List Char) (hp : p ≠ []) {w : List Char}
    (hw : w ≠ []) (hdisj : charsDisjL p w) :
    ∀ cs : List (List Char),
      replaceAll (joinWith w cs) p r = joinWith w (cs.map (fun c => replaceAll c p r)) := by
  intro cs
  induction cs with
  | nil => simp [joinWith, replaceAll_nil r hp]
  | cons c cs ih =>
    cases cs with
    | nil => rfl
    | cons d ds =>
      rw [joinWith_cons₂ w c (by simp)]
      rw [replaceAll_wall r hp hw hdisj c.length c le_rfl (joinWith w (d :: ds))]
      rw [ih]
      rw [show List.map (fun c => replaceAll c p r) (c :: d :: ds) =
        replaceAll c p r :: List.map (fun c => replaceAll c p r) (d :: ds) from rfl]
      rw [joinWith_cons₂ w (replaceAll c p r) (by simp)]

/-- Replacing the separator `g` by `o` in chunks joined by `g` recovers the
chunks joined by `o`, when no chunk contains a character of `g`. -/
lemma replaceAll_collapse {g : List Char} (o : List Char) (hg : g ≠ []) :
    ∀ cs : List (List Char), (∀ c ∈ cs, charsDisjL g c) →
      replaceAll (joinWith g cs) g o = joinWith o cs := by
  intro cs
  induction cs with
  | nil => intro _; simp [joinWith, replaceAll_nil o hg]
  | cons c cs ih =>
    intro hdisj
    cases cs with
    | nil =>
      have := replaceAll_id o hg c (hdisj c (by simp))
      simpa [joinWith] using this
    | cons d ds =>
      rw [joinWith_cons₂ g c (by simp)]
      have hstep : replaceAll (c ++ (g ++ joinWith g (d :: ds))) g o =
          c ++ replaceAll (g ++ joinWith g (d :: ds)) g o :=
        replaceAll_pass o hg c (g ++ joinWith g (d :: ds)) (hdisj c (by simp))
      rw [List.append_assoc, hstep]
      rw [replaceAll_pos o hg (isPrefixOf_append_self g (joinWith g (d :: ds))),
        List.drop_left]
      rw [ih (fun x hx => hdisj x (by simp [hx]))]
      rw [joinWith_cons₂ o c (by simp)]
      simp

/-- Characters of a replacement result come from the text or the replacement. -/
lemma replaceAll_chars {o : List Char} (n : List Char) (ho : o ≠ []) :
    ∀ (k : Nat) (s : List Char), s.length ≤ k →
      ∀ ch ∈ replaceAll s o n, ch ∈ s ∨ ch ∈ n := by
  intro k
  induction k with
  | zero =>
    intro s hs ch hch
    have : s = [] := List.eq_nil_of_length_eq_zero (Nat.le_zero.mp hs)
    subst this
    rw [replaceAll_nil n ho] at hch
    simp at hch
  | succ k ih =>
    intro s hs ch hch
    have holen : 1 ≤ o.length := by cases o with
      | nil => exact absurd rfl ho
      | cons x xs => simp
    by_cases hp : o.isPrefixOf s = true
    · rw [replaceAll_pos n ho hp] at hch
      rcases List.mem_append.mp hch with h | h
      · exact Or.inr h
      · have hdlen : (s.drop o.length).length ≤ k := by
          rw [List.length_drop]
          obtain ⟨t, rfl⟩ := isPrefixOf_ex.mp hp
          simp only [List.length_append] at hs ⊢
          omega
        rcases ih (s.drop o.length) hdlen ch h with h' | h'
        · exact Or.inl (List.mem_of_mem_drop h')
        · exact Or.inr h'
    · cases s with
      | nil =>
        rw [replaceAll_nil n ho] at hch
        simp at hch
      | cons c rest =>
        rw [replaceAll_neg n hp] at hch
        rcases List.mem_cons.mp hch with h | h
        · exact Or.inl (by simp [h])
        · rcases ih rest (by simp only [List.length_cons] at hs; omega) ch h with h' | h'
          · exact Or.inl (by simp [h'])
          · exact Or.inr h'

/-- A sequence of replacements distributes over chunks joined by a wall
disjoint from every pattern. `pat`/`rep` select the pattern and replacement
from each pair (so the same lemma serves both replacement directions). -/
lemma foldl_replace_over_join (pat rep : List Char × List Char → List Char) :
    ∀ (ps : List (List Char × List Char)) (w : List Char) (cs : List (List Char)),
      w ≠ [] → (∀ x ∈ ps, pat x ≠ [] ∧ charsDisjL (pat x) w) →
      List.foldl (fun t x => replaceAll t (pat x) (rep x)) (joinWith w cs) ps =
        joinWith w (cs.map (fun c => List.foldl (fun t x => replaceAll t (pat x) (rep x)) c ps)) := by
  intro ps
  induction ps with
  | nil =>
    intro w cs _ _
    simp
  | cons x ps ih =>
    intro w cs hw hx
    rw [List.foldl_cons]
    rw [show replaceAll (joinWith w cs) (pat x) (rep x) =
      joinWith w (cs.map (fun c => replaceAll c (pat x) (rep x))) from
      replaceAll_over_join (rep x) (hx x (by simp)).1 hw (hx x (by simp)).2 cs]
    rw [ih w _ hw (fun y hy => hx y (by simp [hy]))]
    rw [List.map_map]
    rfl

/-- Characters of a sequence of replacements come from the text or from one
of the replacement values. -/
lemma foldl_replace_chars (pat rep : List Char × List Char → List Char) :
    ∀ (ps : List (List Char × List Char)) (s : List Char),
      (∀ x ∈ ps, pat x ≠ []) →
      ∀ ch ∈ List.foldl (fun t x => replaceAll t (pat x) (rep x)) s ps,
        ch ∈ s ∨ ∃ x ∈ ps, ch ∈ rep x := by
  intro ps
  induction ps with
  | nil =>
    intro s _ ch hch
    simp at hch
    exact Or.inl hch
  | cons x ps ih =>
    intro s hx ch hch
    rw [List.foldl_cons] at hch
    rcases ih (replaceAll s (pat x) (rep x)) (fun y hy => hx y (by simp [hy])) ch hch with
      h | ⟨y, hy, hmem⟩
    · rcases replaceAll_chars (rep x) (hx x (by simp)) s.length s le_rfl ch h with h' | h'
      · exact Or.inl h'
      · exact Or.inr ⟨x, by simp, h'⟩
    · exact Or.inr ⟨y, by simp [hy], hmem⟩

/-- Main inversion theorem: replacing each original `p.1` by its generated
value `p.2` in sequence, then replacing each generated value back by its
original in the same sequence order, restores the text — provided every
generated value is non-empty and shares no character with the text, with any
other generated value, or with any original. -/
theorem foldl_replace_roundtrip :
    ∀ (ps : List (List Char × List Char)) (s : List Char),
      (∀ p ∈ ps, p.1 ≠ []) →
      (∀ p ∈ ps, p.2 ≠ []) →
      (∀ p ∈ ps, charsDisjL p.2 s) →
      List.Pairwise (fun p q => charsDisjL p.2 q.2) ps →
      (∀ p ∈ ps, ∀ q ∈ ps, charsDisjL p.1 q.2) →
      List.foldl (fun t x => replaceAll t x.2 x.1)
        (List.foldl (fun t x => replaceAll t x.1 x.2) s ps) ps = s := by
  intro ps
  induction ps with
  | nil => intro s _ _ _ _ _; rfl
  | cons hd rest ih =>
    intro s h1 h2 hfresh hpw hog
    obtain ⟨o, g⟩ := hd
    have ho : o ≠ [] := h1 (o, g) (by simp)
    have hg : g ≠ [] := h2 (o, g) (by simp)
    have hgs : charsDisjL g s := hfresh (o, g) (by simp)
    have hpwtail : ∀ q ∈ rest, charsDisjL g q.2 :=
      fun q hq => (List.pairwise_cons.mp hpw).1 q hq
    have hpwrest : List.Pairwise (fun p q => charsDisjL p.2 q.2) rest :=
      (List.pairwise_cons.mp hpw).2
    set chunks := splitOnSub s o with hchunks
    have hjn : replaceAll s o g = joinWith g chunks :=
      replaceAll_eq_join g ho s.length s le_rfl
    have hchunkchars : ∀ c ∈ chunks, ∀ ch ∈ c, ch ∈ s :=
      splitOnSub_chars ho s.length s le_rfl
    rw [List.foldl_cons, List.foldl_cons, hjn]
    have hstep2 : List.foldl (fun t x => replaceAll t x.1 x.2) (joinWith g chunks) rest =
        joinWith g (chunks.map (fun c => List.foldl (fun t x => replaceAll t x.1 x.2) c rest)) := by
      apply foldl_replace_over_join Prod.fst Prod.snd rest g chunks hg
      intro x hx
      refine ⟨h1 x (by simp [hx]), ?_⟩
      exact hog x (by simp [hx]) (o, g) (by simp)
    rw [hstep2]
    have hcollapse : replaceAll
        (joinWith g (chunks.map (fun c => List.foldl (fun t x => replaceAll t x.1 x.2) c rest)))
        g o =
        joinWith o (chunks.map (fun c => List.foldl (fun t x => replaceAll t x.1 x.2) c rest)) := by
      apply replaceAll_collapse o hg
      intro c' hc'
      obtain ⟨c, hc, rfl⟩ := List.mem_map.mp hc'
      intro ch hchg hchc'
      rcases foldl_replace_chars Prod.fst Prod.snd rest c
          (fun y hy => h1 y (by simp [hy])) ch hchc' with h | ⟨y, hy, hmem⟩
      · exact hgs ch hchg (hchunkchars c hc ch h)
      · exact hpwtail y hy ch hchg hmem
    rw [hcollapse]
    have hstep3 : List.foldl (fun t x => replaceAll t x.2 x.1)
        (joinWith o (chunks.map (fun c => List.foldl (fun t x => replaceAll t x.1 x.2) c rest))) rest =
        joinWith o ((chunks.map (fun c => List.foldl (fun t x => replaceAll t x.1 x.2) c rest)).map
          (fun c => List.foldl (fun t x => replaceAll t x.2 x.1) c rest)) := by
      apply foldl_replace_over_join Prod.snd Prod.fst rest o _ ho
      intro x hx
      refine ⟨h2 x (by simp [hx]), ?_⟩
      exact charsDisjL_symm (hog (o, g) (by simp) x (by simp [hx]))
    rw [hstep3, List.map_map]
    have hper : ∀ c ∈ chunks,
        List.foldl (fun t x => replaceAll t x.2 x.1)
          (List.foldl (fun t x => replaceAll t x.1 x.2) c rest) rest = c := by
      intro c hc
      apply ih c
      · intro p hp; exact h1 p (by simp [hp])
      · intro p hp; exact h2 p (by simp [hp])
      · intro p hp ch hchp hchc
        exact hfresh p (by simp [hp]) ch hchp (hchunkchars c hc ch hchc)
      · exact hpwrest
      · intro p hp q hq
        exact hog p (by simp [hp]) q (by simp [hq])
    have hmapid : chunks.map (fun c =>
        List.foldl (fun t x => replaceAll t x.2 x.1)
          (List.foldl (fun t x => replaceAll t x.1 x.2) c rest) rest) = chunks := by
      rw [List.map_congr_left hper]
      simp
    rw [show ((fun c => List.foldl (fun t x => replaceAll t x.2 x.1) c rest) ∘
        (fun c => List.foldl (fun t x => replaceAll t x.1 x.2) c rest)) =
        (fun c => List.foldl (fun t x => replaceAll t x.2 x.1)
          (List.foldl (fun t x => replaceAll t x.1 x.2) c rest) rest) from rfl]
    rw [hmapid]
    exact joinWith_splitOnSub ho s.length s le_rfl

lemma charsDisjB_eq_true {a b : String} (h : charsDisjB a b = true) :
    charsDisjL a.data b.data := by
  intro c hc hb
  have := List.all_eq_true.mp h c hc
  rw [Bool.not_eq_true', ← Bool.not_eq_true] at this
  exact this (List.elem_eq_true_of_mem hb)

lemma getD_mod_mem (pop : List Char) (n : Nat) (d : Char) (hpop : pop ≠ []) :
    pop.getD (n % pop.length) d ∈ pop := by
  have hlen : 0 < pop.length := List.length_pos.mpr hpop
  have hlt : n % pop.length < pop.length := Nat.mod_lt n hlen
  rw [List.getD_eq_get?, List.get?_eq_get hlt]
  simp only [Option.getD_some]
  exact List.get_mem pop _ hlt

lemma drawsFrom_mem {σ : Nat → Nat} {start : Nat} {pop : List Char} {k : Nat}
    (hpop : pop ≠ []) : ∀ c ∈ drawsFrom σ start pop k, c ∈ pop := by
  intro c hc
  obtain ⟨i, _, rfl⟩ := List.mem_map.mp hc
  exact getD_mod_mem pop _ 'a' hpop

lemma drawsFrom_length (σ : Nat → Nat) (start : Nat) (pop : List Char) (k : Nat) :
    (drawsFrom σ start pop k).length = k := by
  simp [drawsFrom]

lemma uid_chars (σ : Nat → Nat) : ∀ c ∈ (generate_unique_id σ).data, c ∈ alnumChars := by
  intro c hc
  exact drawsFrom_mem (by decide) c hc

lemma uid_length (σ : Nat → Nat) : (generate_unique_id σ).length = 10 := by
  show (drawsFrom σ 0 alnumChars 10).length = 10
  exact drawsFrom_length σ 0 alnumChars 10

lemma uid_no_underscore (σ : Nat → Nat) : '_' ∉ (generate_unique_id σ).data := by
  intro h
  have := uid_chars σ '_' h
  revert this
  decide

lemma uid_no_dot (σ : Nat → Nat) : '.' ∉ (generate_unique_id σ).data := by
  intro h
  have := uid_chars σ '.' h
  revert this
  decide

lemma sanitize_chars (s : String) :
    ∀ c ∈ (sanitizeName s).data, c.isAlphanum = true ∨ c = '_' := by
  intro c hc
  obtain ⟨d, _, rfl⟩ := List.mem_map.mp hc
  by_cases h : d.isAlphanum = true
  · rw [if_pos h]; exact Or.inl h
  · rw [if_neg h]; exact Or.inr rfl

lemma sanitize_no_dot (s : String) : '.' ∉ (sanitizeName s).data := by
  intro h
  rcases sanitize_chars s '.' h with h' | h' <;> revert h' <;> decide

lemma splitCharList_ne_nil (sep : Char) : ∀ l, splitCharList sep l ≠ [] := by
  intro l
  induction l with
  | nil => simp [splitCharList]
  | cons c rest ih =>
    simp only [splitCharList]
    by_cases h : c = sep
    · rw [if_pos h]; simp
    · rw [if_neg h]
      cases hs : splitCharList sep rest with
      | nil => exact absurd hs ih
      | cons x xs => simp [consHead]

lemma splitCharList_sep_append (sep : Char) :
    ∀ a b, splitCharList sep (a ++ sep :: b) = splitCharList sep a ++ splitCharList sep b := by
  intro a b
  induction a with
  | nil => simp [splitCharList]
  | cons c a' ih =>
    simp only [List.cons_append, splitCharList, List.append_eq]
    by_cases h : c = sep
    · rw [if_pos h, if_pos h, ih]
      simp
    · rw [if_neg h, if_neg h, ih]
      cases hs : splitCharList sep a' with
      | nil => exact absurd hs (splitCharList_ne_nil sep a')
      | cons x xs => simp [consHead]

lemma splitCharList_no_sep (sep : Char) :
    ∀ l, sep ∉ l → splitCharList sep l = [l] := by
  intro l
  induction l with
  | nil => intro _; rfl
  | cons c rest ih =>
    intro h
    simp only [splitCharList]
    rw [if_neg (by intro hc; exact h (by simp [hc]))]
    rw [ih (fun hm => h (by simp [hm]))]
    rfl

lemma joinWith_splitCharList (sep : Char) :
    ∀ l, joinWith [sep] (splitCharList sep l) = l := by
  intro l
  induction l with
  | nil => rfl
  | cons c rest ih =>
    simp only [splitCharList]
    by_cases h : c = sep
    · rw [if_pos h,
        joinWith_cons₂ [sep] [] (splitCharList_ne_nil sep rest)]
      simp [h, ih]
    · rw [if_neg h, joinWith_consHead [sep] c (splitCharList_ne_nil sep rest), ih]

lemma strJoinU_map_mk :
    ∀ l : List (List Char), strJoinU (l.map String.mk) = String.mk (joinWith ['_'] l) := by
  intro l
  induction l with
  | nil => rfl
  | cons c cs ih =>
    cases cs with
    | nil => rfl
    | cons d ds =>
      rw [show (c :: d :: ds).map String.mk = String.mk c :: (d :: ds).map String.mk from rfl]
      rw [show strJoinU (String.mk c :: (d :: ds).map String.mk) =
        String.mk c ++ "_" ++ strJoinU ((d :: ds).map String.mk) from rfl]
      rw [ih, joinWith_cons₂ ['_'] c (by simp)]
      apply String.ext
      simp [String.data_append]

lemma lastIdxOf_none (c : Char) : ∀ l, c ∉ l → lastIdxOf c l = none := by
  intro l
  induction l with
  | nil => intro _; rfl
  | cons x xs ih =>
    intro h
    have hxc : ¬ x = c := by intro hx; exact h (by simp [hx])
    simp only [lastIdxOf]
    rw [ih (fun hm => h (by simp [hm]))]
    simp [hxc]

lemma lastIdxOf_concat (c : Char) :
    ∀ a b, c ∉ b → lastIdxOf c (a ++ c :: b) = some a.length := by
  intro a b hb
  induction a with
  | nil =>
    simp only [List.nil_append, lastIdxOf]
    rw [lastIdxOf_none c b hb]
    simp
  | cons x a' ih =>
    simp only [List.cons_append, lastIdxOf, List.append_eq]
    rw [ih]
    simp

/-- `Path.stem` drops a trailing `.txt`-style suffix when the rest of the
name contains no dot. -/
lemma stemOfName_concat (x sfx : String) (hxne : x.data ≠ [])
    (hsfx : '.' ∉ sfx.data) (hsfxne : sfx.data ≠ []) :
    stemOfName (x ++ "." ++ sfx) = x := by
  have hdata : (x ++ "." ++ sfx).data = x.data ++ '.' :: sfx.data := by
    simp [String.data_append]
  have hlen : 0 < x.data.length := List.length_pos.mpr hxne
  have hslen : 0 < sfx.data.length := List.length_pos.mpr hsfxne
  have hcond : 0 < x.data.length ∧ x.data.length + 1 < (x.data ++ '.' :: sfx.data).length := by
    refine ⟨hlen, ?_⟩
    simp only [List.length_append, List.length_cons]
    omega
  unfold stemOfName
  rw [hdata, lastIdxOf_concat '.' x.data sfx.data hsfx]
  show (if 0 < x.data.length ∧ x.data.length + 1 < (x.data ++ '.' :: sfx.data).length then
    String.mk ((x.data ++ '.' :: sfx.data).take x.data.length) else x ++ "." ++ sfx) = x
  rw [if_pos hcond, List.take_left]

lemma getLastD_concat_str (l : List String) (x d : String) : (l ++ [x]).getLastD d = x := by
  simp

lemma fileName_concat (dir : FPath) (n : String) : fileName (dir ++ [n]) = n := by
  simp [fileName]

lemma parseStem_eq (dir : FPath) (base uid : String)
    (hbu : '_' ∉ uid.data) :
    parseStem (dir ++ ["anonymized_" ++ base ++ "_" ++ uid ++ ".txt"]) = (base, uid) := by
  have hstem : stemOfName (fileName (dir ++ ["anonymized_" ++ base ++ "_" ++ uid ++ ".txt"])) =
      "anonymized_" ++ base ++ "_" ++ uid := by
    rw [fileName_concat]
    rw [show ("anonymized_" ++ base ++ "_" ++ uid ++ ".txt" : String) =
      ("anonymized_" ++ base ++ "_" ++ uid) ++ "." ++ "txt" from by
        apply String.ext; simp [String.data_append]]
    apply stemOfName_concat
    · intro hmem
      have hlen : ("anonymized_" ++ base ++ "_" ++ uid : String).length = 0 :=
        congrArg List.length hmem
      rw [String.length_append, String.length_append, String.length_append] at hlen
      have h11 : ("anonymized_" : String).length = 11 := by decide
      omega
    · decide
    · decide
  have hsplitdata : splitCharList '_' (("anonymized_" ++ base ++ "_" ++ uid : String)).data =
      ("anonymized" : String).data :: (splitCharList '_' base.data ++ [uid.data]) := by
    have h1 : (("anonymized_" ++ base ++ "_" ++ uid : String)).data =
        ("anonymized" : String).data ++ '_' :: (base.data ++ '_' :: uid.data) := by
      simp [String.data_append]
    rw [h1, splitCharList_sep_append '_']
    rw [splitCharList_no_sep '_' (("anonymized" : String).data) (by decide)]
    rw [splitCharList_sep_append '_']
    rw [splitCharList_no_sep '_' uid.data hbu]
    simp
  unfold parseStem
  rw [hstem]
  unfold splitChar
  rw [hsplitdata]
  rw [show (("anonymized" : String).data :: (splitCharList '_' base.data ++ [uid.data])).map
      String.mk = "anonymized" :: ((splitCharList '_' base.data).map String.mk ++ [uid]) from by
    simp]
  rw [Prod.mk.injEq]
  refine ⟨?_, ?_⟩
  · rw [show ("anonymized" :: ((splitCharList '_' base.data).map String.mk ++ [uid])).drop 1 =
      (splitCharList '_' base.data).map String.mk ++ [uid] from rfl]
    rw [List.dropLast_concat]
    rw [strJoinU_map_mk, joinWith_splitCharList]
  · rw [show ("anonymized" :: ((splitCharList '_' base.data).map String.mk ++ [uid])) =
      ("anonymized" :: (splitCharList '_' base.data).map String.mk) ++ [uid] from by simp]
    exact getLastD_concat_str _ _ _

lemma head?_append_left (l₁ l₂ : List Char) (h : l₁ ≠ []) : (l₁ ++ l₂).head? = l₁.head? := by
  cases l₁ with
  | nil => exact absurd rfl h
  | cons a as => rfl

lemma str_append_ne_of_head {a b : String} (x y : String) {c d : Char}
    (ha : a.data.head? = some c) (hb : b.data.head? = some d) (hne : c ≠ d) :
    a ++ x ≠ b ++ y := by
  intro h
  have hane : a.data ≠ [] := by
    intro hn
    rw [hn] at ha
    exact Option.noConfusion ha
  have hbne : b.data ≠ [] := by
    intro hn
    rw [hn] at hb
    exact Option.noConfusion hb
  have h2 : (a ++ x).data.head? = (b ++ y).data.head? := congrArg (fun s => s.data.head?) h
  rw [String.data_append, String.data_append, head?_append_left a.data x.data hane,
    head?_append_left b.data y.data hbne, ha, hb] at h2
  exact hne (Option.some.inj h2)

lemma sens_ne_anon (x y : String) : ("sensitive_data_" ++ x : String) ≠ "anonymized_" ++ y :=
  str_append_ne_of_head x y rfl rfl (by decide)

lemma dean_ne_sens (x y : String) : ("deanonymized_" ++ x : String) ≠ "sensitive_data_" ++ y :=
  str_append_ne_of_head x y rfl rfl (by decide)

lemma concat_ne_of_last {n₁ n₂ : String} (dir : FPath) (h : n₁ ≠ n₂) :
    dir ++ [n₁] ≠ dir ++ [n₂] := by
  intro he
  apply h
  have := List.append_cancel_left he
  simpa using this

lemma str_ne_of_data_head {a b : String} (h : a.data.head? ≠ b.data.head?) : a ≠ b :=
  fun he => h (congrArg (fun s => s.data.head?) he)

lemma csvname_ne_anonname (b₁ u₁ b₂ u₂ : String) :
    ("sensitive_data_" ++ b₁ ++ "_" ++ u₁ ++ ".csv" : String) ≠
      "anonymized_" ++ b₂ ++ "_" ++ u₂ ++ ".txt" := by
  apply str_ne_of_data_head
  rw [show ("sensitive_data_" ++ b₁ ++ "_" ++ u₁ ++ ".csv" : String).data =
    ("sensitive_data_" : String).data ++
      (b₁.data ++ (("_" : String).data ++ (u₁.data ++ (".csv" : String).data))) from by
    simp [String.data_append]]
  rw [show ("anonymized_" ++ b₂ ++ "_" ++ u₂ ++ ".txt" : String).data =
    ("anonymized_" : String).data ++
      (b₂.data ++ (("_" : String).data ++ (u₂.data ++ (".txt" : String).data))) from by
    simp [String.data_append]]
  rw [head?_append_left _ _ (by decide), head?_append_left _ _ (by decide)]
  decide

lemma deanname_ne_csvname (b₁ u₁ b₂ u₂ : String) :
    ("deanonymized_" ++ b₁ ++ "_" ++ u₁ ++ ".txt" : String) ≠
      "sensitive_data_" ++ b₂ ++ "_" ++ u₂ ++ ".csv" := by
  apply str_ne_of_data_head
  rw [show ("deanonymized_" ++ b₁ ++ "_" ++ u₁ ++ ".txt" : String).data =
    ("deanonymized_" : String).data ++
      (b₁.data ++ (("_" : String).data ++ (u₁.data ++ (".txt" : String).data))) from by
    simp [String.data_append]]
  rw [show ("sensitive_data_" ++ b₂ ++ "_" ++ u₂ ++ ".csv" : String).data =
    ("sensitive_data_" : String).data ++
      (b₂.data ++ (("_" : String).data ++ (u₂.data ++ (".csv" : String).data))) from by
    simp [String.data_append]]
  rw [head?_append_left _ _ (by decide), head?_append_left _ _ (by decide)]
  decide

lemma anonymize_notfile_ok (analyze : String → List RecognizerResult)
    (gen : Nat → String → String → Option String) (σid : Nat → Nat) (ts : String)
    (fs : FS) (input : String) (dir : FPath) (nameOpt : Option String)
    (h : hasFile fs (strToPath input) = false) :
    anonymize analyze gen σid ts allW fs input dir nameOpt =
      (fsWrite
        (fsWrite fs
          (dir ++ ["anonymization_" ++ ts ++ "_" ++ generate_unique_id σid] ++
            ["sensitive_data_" ++
              sanitizeName (pyOrName nameOpt ("no_filename_provided_" ++ generate_unique_id σid)) ++
              "_" ++ generate_unique_id σid ++ ".csv"])
          (.table csvHeader
            ((sessionPairs gen input (analyze input)).map (fun p => [p.1, p.2]))))
        (dir ++ ["anonymization_" ++ ts ++ "_" ++ generate_unique_id σid] ++
          ["anonymized_" ++
            sanitizeName (pyOrName nameOpt ("no_filename_provided_" ++ generate_unique_id σid)) ++
            "_" ++ generate_unique_id σid ++ ".txt"])
        (.text ((sessionPairs gen input (analyze input)).foldl
          (fun t p => strReplace t p.1 p.2) input)),
       .ok
        (dir ++ ["anonymization_" ++ ts ++ "_" ++ generate_unique_id σid] ++
          ["anonymized_" ++
            sanitizeName (pyOrName nameOpt ("no_filename_provided_" ++ generate_unique_id σid)) ++
            "_" ++ generate_unique_id σid ++ ".txt"],
         dir ++ ["anonymization_" ++ ts ++ "_" ++ generate_unique_id σid] ++
          ["sensitive_data_" ++
            sanitizeName (pyOrName nameOpt ("no_filename_provided_" ++ generate_unique_id σid)) ++
            "_" ++ generate_unique_id σid ++ ".csv"])) := by
  simp only [anonymize, h, Bool.false_eq_true, if_false, allW, if_true, List.append_assoc]

/-- C9: the result of `deanonymize_text` is independent of its
`output_base_directory` argument (which the code converts to a path and never
uses): identical filesystem effect and result for any two values, and on
success the output file is placed in the directory containing the anonymized
file. -/
theorem C9_deanonymize_ignores_base_dir (fs : FS) (p : FPath) (d₁ d₂ : FPath) :
    deanonymize fs p d₁ = deanonymize fs p d₂ ∧
    (∀ fs' out, deanonymize fs p d₁ = (fs', Except.ok out) → out.dropLast = p.dropLast) := by
  constructor
  · rfl
  · intro fs' out h
    simp only [deanonymize] at h
    split at h
    · exact absurd (congrArg Prod.snd h) (by simp)
    · split at h
      · exact absurd (congrArg Prod.snd h) (by simp)
      · split at h
        · have h2 := congrArg Prod.snd h
          simp only [Except.ok.injEq] at h2
          rw [← h2, List.dropLast_concat]
        · exact absurd (congrArg Prod.snd h) (by simp)

/-- Witness for C9 at a concrete filesystem and file. -/
theorem C9_witness :
    deanonymize fsEx ["d", "anonymized_b_t.txt"] [] =
      deanonymize fsEx ["d", "anonymized_b_t.txt"] ["elsewhere"] ∧
    (["d", "deanonymized_b_t.txt"] : FPath).dropLast =
      (["d", "anonymized_b_t.txt"] : FPath).dropLast := by
  obtain ⟨h1, h2⟩ :=
    C9_deanonymize_ignores_base_dir fsEx ["d", "anonymized_b_t.txt"] [] ["elsewhere"]
  refine ⟨h1, h2 (deanonymize fsEx ["d", "anonymized_b_t.txt"] []).1
    ["d", "deanonymized_b_t.txt"] ?_⟩
  exact Prod.ext_iff.mpr ⟨rfl, by decide⟩

/-- C3: a successful `deanonymize_text` deletes the mapping CSV before
returning, and a second call against the same anonymized file fails with a
not-found error for the (now missing) mapping file. -/
theorem C3_single_use (fs : FS) (p : FPath) (d : FPath) (fs' : FS) (out : FPath)
    (h : deanonymize fs p d = (fs', Except.ok out)) :
    hasFile fs' (mappingPathOf p) = false ∧
    (deanonymize fs' p d).2 = Except.error (DErr.fileNotFound (mappingPathOf p)) := by
  have hnone : fs' (mappingPathOf p) = none := by
    simp only [deanonymize] at h
    split at h
    · exact absurd (congrArg Prod.snd h) (by simp)
    · split at h
      · exact absurd (congrArg Prod.snd h) (by simp)
      · split at h
        · have h1 := congrArg Prod.fst h
          simp only at h1
          rw [← h1]
          simp [fsErase]
        · exact absurd (congrArg Prod.snd h) (by simp)
  constructor
  · simp [hasFile, hnone]
  · simp only [deanonymize, hnone]

/-- Witness for C3 at a concrete filesystem and file. -/
theorem C3_witness :
    hasFile (deanonymize fsEx ["d", "anonymized_b_t.txt"] []).1
      (mappingPathOf ["d", "anonymized_b_t.txt"]) = false ∧
    (deanonymize (deanonymize fsEx ["d", "anonymized_b_t.txt"] []).1
      ["d", "anonymized_b_t.txt"] []).2 =
      Except.error (DErr.fileNotFound (mappingPathOf ["d", "anonymized_b_t.txt"])) :=
  C3_single_use fsEx ["d", "anonymized_b_t.txt"] []
    (deanonymize fsEx ["d", "anonymized_b_t.txt"] []).1 ["d", "deanonymized_b_t.txt"]
    (Prod.ext_iff.mpr ⟨rfl, by decide⟩)

/-- C5 counterexample: `deanonymize_text` performs no validation of the first
stem segment. A file whose stem starts with `misnamed` (not `anonymized`) is
still processed successfully when the reconstructed mapping file exists. -/
theorem C5_counterexample :
    (splitChar '_' (stemOfName (fileName ["d", "misnamed_base_tok.txt"]))).headD "" ≠
      "anonymized" ∧
    (deanonymize (fun p =>
        if p = ["d", "misnamed_base_tok.txt"] then some (FileData.text "x")
        else if p = ["d", "sensitive_data_base_tok.csv"] then
          some (FileData.table ["sensitive_data_original", "sensitive_data_generated"]
            [["o", "g"]])
        else none) ["d", "misnamed_base_tok.txt"] []).2 =
      Except.ok ["d", "deanonymized_base_tok.txt"] := by
  decide

/-- C5 (amended): `deanonymize_text` splits the stem on underscores, SKIPS the
first segment without validating that it is `anonymized`, takes the last
segment as the token and the rejoined middle as the base name; it looks for
`sensitive_data_<base_name>_<token>.csv` beside the anonymized file and fails
with a not-found error when that file is absent. -/
theorem C5_mapping_lookup (fs : FS) (p : FPath) (d : FPath)
    (h : hasFile fs (mappingPathOf p) = false) :
    mappingPathOf p = p.dropLast ++
      ["sensitive_data_" ++
        strJoinU (((splitChar '_' (stemOfName (fileName p))).drop 1).dropLast) ++ "_" ++
        (splitChar '_' (stemOfName (fileName p))).getLastD "" ++ ".csv"] ∧
    (deanonymize fs p d).2 = Except.error (DErr.fileNotFound (mappingPathOf p)) := by
  have hnone : fs (mappingPathOf p) = none := by
    cases hfs : fs (mappingPathOf p) with
    | none => rfl
    | some v => rw [hasFile, hfs] at h; simp at h
  exact ⟨rfl, by simp only [deanonymize, hnone]⟩

/-- Witness for the amended C5 at a concrete missing mapping file. -/
theorem C5_witness :
    mappingPathOf ["d", "anonymized_b_t.txt"] = ["d"] ++
      ["sensitive_data_" ++
        strJoinU (((splitChar '_' (stemOfName (fileName ["d", "anonymized_b_t.txt"]))).drop
          1).dropLast) ++ "_" ++
        (splitChar '_' (stemOfName (fileName ["d", "anonymized_b_t.txt"]))).getLastD "" ++
        ".csv"] ∧
    (deanonymize emptyFS ["d", "anonymized_b_t.txt"] []).2 =
      Except.error (DErr.fileNotFound (mappingPathOf ["d", "anonymized_b_t.txt"])) :=
  C5_mapping_lookup emptyFS ["d", "anonymized_b_t.txt"] [] (by decide)

lemma hasFile_write_write (fs : FS) (p q : FPath) (d₁ d₂ : FileData) :
    hasFile (fsWrite (fsWrite fs p d₁) q d₂) q = true ∧
    hasFile (fsWrite (fsWrite fs p d₁) q d₂) p = true := by
  constructor
  · simp [hasFile, fsWrite]
  · by_cases h : p = q <;> simp [hasFile, fsWrite, h]

/-- C6 counterexample: when the mapping CSV is created but opening the
anonymized-text file for writing then fails, `anonymize_text` raises — and the
mapping CSV remains on disk while the anonymized file does not, so "either
both artifacts exist or neither does" fails on this non-crash failure path. -/
theorem C6_counterexample :
    ((anonymize (fun _ => []) (fun _ _ _ => none) (fun _ => 0) "T"
        (fun p => p != ["anonymization_T_aaaaaaaaaa", "anonymized_n_aaaaaaaaaa.txt"])
        emptyFS "hi" [] (some "n")).2 =
      Except.error (AErr.writeFailed
        ["anonymization_T_aaaaaaaaaa", "anonymized_n_aaaaaaaaaa.txt"])) ∧
    hasFile (anonymize (fun _ => []) (fun _ _ _ => none) (fun _ => 0) "T"
        (fun p => p != ["anonymization_T_aaaaaaaaaa", "anonymized_n_aaaaaaaaaa.txt"])
        emptyFS "hi" [] (some "n")).1
      ["anonymization_T_aaaaaaaaaa", "sensitive_data_n_aaaaaaaaaa.csv"] = true ∧
    hasFile (anonymize (fun _ => []) (fun _ _ _ => none) (fun _ => 0) "T"
        (fun p => p != ["anonymization_T_aaaaaaaaaa", "anonymized_n_aaaaaaaaaa.txt"])
        emptyFS "hi" [] (some "n")).1
      ["anonymization_T_aaaaaaaaaa", "anonymized_n_aaaaaaaaaa.txt"] = false := by
  decide

/-- C6 (amended): on every SUCCESSFUL return of `anonymize_text` both the
anonymized-text file and the mapping CSV exist; if the call fails after the
mapping CSV was created (the anonymized-text write fails), the CSV may remain
alone — the code performs no rollback. -/
theorem C6_success_both_artifacts (analyze : String → List RecognizerResult)
    (gen : Nat → String → String → Option String) (σid : Nat → Nat) (ts : String)
    (W : FPath → Bool) (fs : FS) (input : String) (dir : FPath) (nameOpt : Option String)
    (fs' : FS) (out csv : FPath)
    (h : anonymize analyze gen σid ts W fs input dir nameOpt = (fs', Except.ok (out, csv))) :
    hasFile fs' out = true ∧ hasFile fs' csv = true := by
  simp only [anonymize] at h
  split at h
  · exact absurd (congrArg Prod.snd h) (by simp)
  · split at h
    · split at h
      · simp only [Prod.mk.injEq, Except.ok.injEq] at h
        obtain ⟨hfs, hout, hcsv⟩ := h
        rw [← hfs, ← hout, ← hcsv]
        exact ⟨(hasFile_write_write _ _ _ _ _).1, (hasFile_write_write _ _ _ _ _).2⟩
      · exact absurd (congrArg Prod.snd h) (by simp)
    · exact absurd (congrArg Prod.snd h) (by simp)

/-- Witness for the amended C6 at a concrete successful run. -/
theorem C6_witness :
    hasFile (anonymize (fun _ => []) (fun _ _ _ => none) (fun _ => 0) "T" allW
        emptyFS "hi" [] (some "n")).1
      ["anonymization_T_aaaaaaaaaa", "anonymized_n_aaaaaaaaaa.txt"] = true ∧
    hasFile (anonymize (fun _ => []) (fun _ _ _ => none) (fun _ => 0) "T" allW
        emptyFS "hi" [] (some "n")).1
      ["anonymization_T_aaaaaaaaaa", "sensitive_data_n_aaaaaaaaaa.csv"] = true :=
  C6_success_both_artifacts (fun _ => []) (fun _ _ _ => none) (fun _ => 0) "T" allW
    emptyFS "hi" [] (some "n")
    (anonymize (fun _ => []) (fun _ _ _ => none) (fun _ => 0) "T" allW
      emptyFS "hi" [] (some "n")).1
    ["anonymization_T_aaaaaaaaaa", "anonymized_n_aaaaaaaaaa.txt"]
    ["anonymization_T_aaaaaaaaaa", "sensitive_data_n_aaaaaaaaaa.csv"]
    (Prod.ext_iff.mpr ⟨rfl, by decide⟩)

/-- C10: every input string that is not the path of an existing file is
accepted by `anonymize_text` (no input-validation error) and treated as the
literal text content — the call succeeds, the base name defaults to
`no_filename_provided_<token>` when none is supplied, and the anonymized
output is the replacement fold applied to the input string itself. -/
theorem C10_string_input_accepted (analyze : String → List RecognizerResult)
    (gen : Nat → String → String → Option String) (σid : Nat → Nat) (ts : String)
    (fs : FS) (input : String) (dir : FPath)
    (h : hasFile fs (strToPath input) = false) :
    (anonymize analyze gen σid ts allW fs input dir none).2 =
      Except.ok
        (dir ++ ["anonymization_" ++ ts ++ "_" ++ generate_unique_id σid] ++
          ["anonymized_" ++
            sanitizeName ("no_filename_provided_" ++ generate_unique_id σid) ++ "_" ++
            generate_unique_id σid ++ ".txt"],
         dir ++ ["anonymization_" ++ ts ++ "_" ++ generate_unique_id σid] ++
          ["sensitive_data_" ++
            sanitizeName ("no_filename_provided_" ++ generate_unique_id σid) ++ "_" ++
            generate_unique_id σid ++ ".csv"]) ∧
    (anonymize analyze gen σid ts allW fs input dir none).1
      (dir ++ ["anonymization_" ++ ts ++ "_" ++ generate_unique_id σid] ++
        ["anonymized_" ++
          sanitizeName ("no_filename_provided_" ++ generate_unique_id σid) ++ "_" ++
          generate_unique_id σid ++ ".txt"]) =
      some (FileData.text ((sessionPairs gen input (analyze input)).foldl
        (fun t p => strReplace t p.1 p.2) input)) := by
  rw [anonymize_notfile_ok analyze gen σid ts fs input dir none h]
  constructor
  · rfl
  · simp [fsWrite, pyOrName]

/-- Witness for C10 at the empty input string (not an existing file). -/
theorem C10_witness :
    (anonymize (fun _ => []) (fun _ _ _ => none) (fun _ => 0) "T" allW emptyFS "" []
        none).2 =
      Except.ok
        (["anonymization_T_aaaaaaaaaa",
          "anonymized_no_filename_provided_aaaaaaaaaa_aaaaaaaaaa.txt"],
         ["anonymization_T_aaaaaaaaaa",
          "sensitive_data_no_filename_provided_aaaaaaaaaa_aaaaaaaaaa.csv"]) ∧
    (anonymize (fun _ => []) (fun _ _ _ => none) (fun _ => 0) "T" allW emptyFS "" []
        none).1
      ["anonymization_T_aaaaaaaaaa",
        "anonymized_no_filename_provided_aaaaaaaaaa_aaaaaaaaaa.txt"] =
      some (FileData.text "") := by
  obtain ⟨h1, h2⟩ := C10_string_input_accepted (fun _ => []) (fun _ _ _ => none)
    (fun _ => 0) "T" emptyFS "" [] (by decide)
  constructor
  · rw [h1]
    decide
  · rw [show (["anonymization_T_aaaaaaaaaa",
      "anonymized_no_filename_provided_aaaaaaaaaa_aaaaaaaaaa.txt"] : FPath) =
      ([] : FPath) ++ ["anonymization_" ++ "T" ++ "_" ++ generate_unique_id (fun _ => 0)] ++
        ["anonymized_" ++
          sanitizeName ("no_filename_provided_" ++ generate_unique_id (fun _ => 0)) ++ "_" ++
          generate_unique_id (fun _ => 0) ++ ".txt"] from by decide]
    rw [h2]
    decide

/-- C8: `anonymize_text` sanitizes the base name by mapping every
non-alphanumeric character to an underscore, and names its artifacts
`anonymized_<base>_<token>.txt` and `sensitive_data_<base>_<token>.csv` in the
session output directory, with the SAME session token in both names; the token
is 10 characters long and alphanumeric. -/
theorem C8_naming_contract (analyze : String → List RecognizerResult)
    (gen : Nat → String → String → Option String) (σid : Nat → Nat) (ts : String)
    (fs : FS) (input : String) (dir : FPath) (nm : String) (hnm : nm ≠ "")
    (h : hasFile fs (strToPath input) = false) :
    sanitizeName nm = String.mk (nm.data.map (fun c => if c.isAlphanum then c else '_')) ∧
    (anonymize analyze gen σid ts allW fs input dir (some nm)).2 =
      Except.ok
        (dir ++ ["anonymization_" ++ ts ++ "_" ++ generate_unique_id σid] ++
          ["anonymized_" ++ sanitizeName nm ++ "_" ++ generate_unique_id σid ++ ".txt"],
         dir ++ ["anonymization_" ++ ts ++ "_" ++ generate_unique_id σid] ++
          ["sensitive_data_" ++ sanitizeName nm ++ "_" ++ generate_unique_id σid ++ ".csv"]) ∧
    (generate_unique_id σid).length = 10 ∧
    (∀ c ∈ (generate_unique_id σid).data, c.isAlphanum = true) := by
  refine ⟨rfl, ?_, uid_length σid, ?_⟩
  · rw [anonymize_notfile_ok analyze gen σid ts fs input dir (some nm) h]
    simp [pyOrName, hnm]
  · intro c hc
    have halnum : ∀ x ∈ alnumChars, x.isAlphanum = true := by decide
    exact halnum c (uid_chars σid c hc)

/-- Witness for C8: the base name `my report` is sanitized to `my_report` and
both artifact names carry the same 10-character token. -/
theorem C8_witness :
    (anonymize (fun _ => []) (fun _ _ _ => none) (fun _ => 0) "T" allW emptyFS "hi" []
        (some "my report")).2 =
      Except.ok
        (["anonymization_T_aaaaaaaaaa", "anonymized_my_report_aaaaaaaaaa.txt"],
         ["anonymization_T_aaaaaaaaaa", "sensitive_data_my_report_aaaaaaaaaa.csv"]) ∧
    (generate_unique_id (fun _ => 0)).length = 10 ∧
    (generate_unique_id (fun _ => 0)).data.all (fun c => c.isAlphanum) = true := by
  obtain ⟨h1, h2, h3, h4⟩ := C8_naming_contract (fun _ => []) (fun _ _ _ => none)
    (fun _ => 0) "T" emptyFS "hi" [] "my report" (by decide) (by decide)
  refine ⟨?_, h3, ?_⟩
  · rw [h2]
    decide
  · rw [List.all_eq_true]
    intro c hc
    exact h4 c hc

lemma lookup_isSome_iff (l : List (String × String)) (k : String) :
    (l.lookup k).isSome = true ↔ k ∈ l.map Prod.fst := by
  induction l with
  | nil => simp [List.lookup]
  | cons p rest ih =>
    obtain ⟨a, b⟩ := p
    simp only [List.lookup, List.map_cons, List.mem_cons]
    by_cases h : k = a
    · simp [h]
    · have : (k == a) = false := by simp [h]
      simp [this, ih, h]

lemma sessionPairs_keys_aux (gen : Nat → String → String → Option String) (text : String)
    (hgen : ∀ n o et, (gen n o et).isSome = true) :
    ∀ (spans : List RecognizerResult) (ctr : Nat) (acc : List (String × String)),
      ((spans.foldl (spanStep gen text) (ctr, acc)).2).map Prod.fst =
        (spans.map (extractSpan text)).foldl
          (fun l o => if o ∈ l then l else l ++ [o]) (acc.map Prod.fst) := by
  intro spans
  induction spans with
  | nil => intro ctr acc; rfl
  | cons r rest ih =>
    intro ctr acc
    rw [List.foldl_cons, List.map_cons, List.foldl_cons]
    by_cases hmem : extractSpan text r ∈ acc.map Prod.fst
    · have hsome : (acc.lookup (extractSpan text r)).isSome = true :=
        (lookup_isSome_iff _ _).mpr hmem
      rw [show spanStep gen text (ctr, acc) r = (ctr, acc) from by simp [spanStep, hsome]]
      rw [if_pos hmem]
      exact ih ctr acc
    · have hlk : (acc.lookup (extractSpan text r)).isSome = false := by
        rw [← Bool.not_eq_true]
        exact fun hc => hmem ((lookup_isSome_iff _ _).mp hc)
      obtain ⟨g, hg⟩ :=
        Option.isSome_iff_exists.mp (hgen ctr (extractSpan text r) r.entity_type)
      have hstep : spanStep gen text (ctr, acc) r =
          (ctr + 1, acc ++ [(extractSpan text r, g)]) := by
        simp [spanStep, hlk, tryGenerate, hg]
      rw [hstep, if_neg hmem, ih (ctr + 1) (acc ++ [(extractSpan text r, g)])]
      congr 1
      simp

/-- With generation always succeeding, the session mapping's keys are exactly
the distinct detected originals in first-occurrence order. -/
lemma sessionPairs_keys (gen : Nat → String → String → Option String) (text : String)
    (spans : List RecognizerResult)
    (hgen : ∀ n o et, (gen n o et).isSome = true) :
    (sessionPairs gen text spans).map Prod.fst =
      firstDedup (spans.map (extractSpan text)) :=
  sessionPairs_keys_aux gen text hgen spans 0 []

lemma foldl_dedup_nodup :
    ∀ (l acc : List String), acc.Nodup →
      (l.foldl (fun a o => if o ∈ a then a else a ++ [o]) acc).Nodup := by
  intro l
  induction l with
  | nil => intro acc h; exact h
  | cons o rest ih =>
    intro acc h
    rw [List.foldl_cons]
    by_cases hm : o ∈ acc
    · rw [if_pos hm]; exact ih acc h
    · rw [if_neg hm]
      exact ih (acc ++ [o]) (by simp [List.nodup_append, h, hm])

lemma firstDedup_nodup (l : List String) : (firstDedup l).Nodup :=
  foldl_dedup_nodup l [] (by simp)

lemma nodup_keys_val_eq :
    ∀ (l : List (String × String)), (l.map Prod.fst).Nodup →
      ∀ a b c, (a, b) ∈ l → (a, c) ∈ l → b = c := by
  intro l
  induction l with
  | nil => intro _ a b c hb _; simp at hb
  | cons p rest ih =>
    intro hnd a b c hb hc
    obtain ⟨x, y⟩ := p
    rw [List.map_cons, List.nodup_cons] at hnd
    rcases List.mem_cons.mp hb with h1 | h1 <;> rcases List.mem_cons.mp hc with h2 | h2
    · rw [Prod.mk.injEq] at h1 h2
      rw [h1.2, h2.2]
    · exfalso
      apply hnd.1
      rw [Prod.mk.injEq] at h1
      rw [← h1.1]
      exact List.mem_map.mpr ⟨(a, c), h2, rfl⟩
    · exfalso
      apply hnd.1
      rw [Prod.mk.injEq] at h2
      rw [← h2.1]
      exact List.mem_map.mpr ⟨(a, b), h1, rfl⟩
    · exact ih hnd.2 a b c h1 h2

/-- C2: within one `anonymize_text` call (generation succeeding), every
distinct detected original has exactly one generated value: the mapping keys
are the distinct originals in first-occurrence order (so exactly one CSV row
per original), the keys are duplicate-free, an original determines its
generated value uniquely, the CSV file written holds exactly those rows, and
the anonymized output applies one global replacement per (original, generated)
pair of that mapping. -/
theorem C2_one_generated_per_original (analyze : String → List RecognizerResult)
    (gen : Nat → String → String → Option String) (σid : Nat → Nat) (ts : String)
    (fs : FS) (input : String) (dir : FPath) (nameOpt : Option String)
    (hgen : ∀ n o et, (gen n o et).isSome = true)
    (h : hasFile fs (strToPath input) = false) :
    (sessionPairs gen input (analyze input)).map Prod.fst =
      firstDedup ((analyze input).map (extractSpan input)) ∧
    ((sessionPairs gen input (analyze input)).map Prod.fst).Nodup ∧
    (∀ o g g', (o, g) ∈ sessionPairs gen input (analyze input) →
      (o, g') ∈ sessionPairs gen input (analyze input) → g = g') ∧
    (anonymize analyze gen σid ts allW fs input dir nameOpt).1
      (csvPathOf dir ts
        (sanitizeName (pyOrName nameOpt ("no_filename_provided_" ++ generate_unique_id σid)))
        (generate_unique_id σid)) =
      some (FileData.table csvHeader
        ((sessionPairs gen input (analyze input)).map (fun p => [p.1, p.2]))) ∧
    (anonymize analyze gen σid ts allW fs input dir nameOpt).1
      (anonPathOf dir ts
        (sanitizeName (pyOrName nameOpt ("no_filename_provided_" ++ generate_unique_id σid)))
        (generate_unique_id σid)) =
      some (FileData.text ((sessionPairs gen input (analyze input)).foldl
        (fun t p => strReplace t p.1 p.2) input)) := by
  have hkeys := sessionPairs_keys gen input (analyze input) hgen
  have hnd : ((sessionPairs gen input (analyze input)).map Prod.fst).Nodup := by
    rw [hkeys]
    exact firstDedup_nodup _
  refine ⟨hkeys, hnd, fun o g g' hg hg' => nodup_keys_val_eq _ hnd o g g' hg hg', ?_, ?_⟩
  · rw [anonymize_notfile_ok analyze gen σid ts fs input dir nameOpt h]
    have hnm := csvname_ne_anonname
      (sanitizeName (pyOrName nameOpt ("no_filename_provided_" ++ generate_unique_id σid)))
      (generate_unique_id σid)
      (sanitizeName (pyOrName nameOpt ("no_filename_provided_" ++ generate_unique_id σid)))
      (generate_unique_id σid)
    simp only [csvPathOf, anonPathOf, outDirOf, List.append_assoc]
    simp [fsWrite, hnm]
  · rw [anonymize_notfile_ok analyze gen σid ts fs input dir nameOpt h]
    simp only [anonPathOf, outDirOf, List.append_assoc]
    simp [fsWrite]

/-- Witness for C2: the original `ab` occurs twice among three detected spans
of the text `ab ab cd`; the mapping holds one row for it. -/
theorem C2_witness :
    (sessionPairs (fun _ o _ => some (o ++ "X")) "ab ab cd"
        [⟨0, 2, "PERSON"⟩, ⟨3, 5, "PERSON"⟩, ⟨6, 8, "PERSON"⟩]).map Prod.fst =
      firstDedup (([⟨0, 2, "PERSON"⟩, ⟨3, 5, "PERSON"⟩, ⟨6, 8, "PERSON"⟩] :
        List RecognizerResult).map (extractSpan "ab ab cd")) ∧
    ((sessionPairs (fun _ o _ => some (o ++ "X")) "ab ab cd"
        [⟨0, 2, "PERSON"⟩, ⟨3, 5, "PERSON"⟩, ⟨6, 8, "PERSON"⟩]).map Prod.fst).Nodup ∧
    (anonymize (fun t => if t = "ab ab cd" then
        [⟨0, 2, "PERSON"⟩, ⟨3, 5, "PERSON"⟩, ⟨6, 8, "PERSON"⟩] else [])
      (fun _ o _ => some (o ++ "X")) (fun _ => 0) "T" allW emptyFS "ab ab cd" []
      (some "n")).1
      (csvPathOf [] "T" "n" "aaaaaaaaaa") =
      some (FileData.table csvHeader [["ab", "abX"], ["cd", "cdX"]]) := by
  obtain ⟨h1, h2, _, h4, _⟩ := C2_one_generated_per_original
    (fun t => if t = "ab ab cd" then
      [⟨0, 2, "PERSON"⟩, ⟨3, 5, "PERSON"⟩, ⟨6, 8, "PERSON"⟩] else [])
    (fun _ o _ => some (o ++ "X")) (fun _ => 0) "T" emptyFS "ab ab cd" [] (some "n")
    (fun _ _ _ => rfl) (by decide)
  refine ⟨?_, ?_, ?_⟩
  · revert h1
    decide
  · revert h2
    decide
  · rw [show (csvPathOf [] "T" "n" "aaaaaaaaaa") =
      (csvPathOf [] "T"
        (sanitizeName (pyOrName (some "n")
          ("no_filename_provided_" ++ generate_unique_id (fun _ => 0))))
        (generate_unique_id (fun _ => 0))) from by decide]
    rw [h4]
    decide

lemma tryGenerate_none (gen : Nat → String → String → Option String) (ctr : Nat)
    (o et : String) (h : ∀ n, gen n o et = none) :
    tryGenerate gen ctr o et = (ctr + 3, none) := by
  unfold tryGenerate
  rw [h ctr, h (ctr + 1), h (ctr + 2)]

lemma sessionPairs_skip_aux (gen : Nat → String → String → Option String) (o₀ : String)
    (text : String)
    (hfail : ∀ n et, gen n o₀ et = none)
    (hsucc : ∀ n o et, o ≠ o₀ → (gen n o et).isSome = true) :
    ∀ (spans : List RecognizerResult) (ctr : Nat) (acc : List (String × String)),
      o₀ ∉ acc.map Prod.fst →
      ((spans.foldl (spanStep gen text) (ctr, acc)).2).map Prod.fst =
        (spans.map (extractSpan text)).foldl
          (fun l o => if o = o₀ then l else if o ∈ l then l else l ++ [o])
          (acc.map Prod.fst) ∧
      o₀ ∉ ((spans.foldl (spanStep gen text) (ctr, acc)).2).map Prod.fst := by
  intro spans
  induction spans with
  | nil => intro ctr acc hinv; exact ⟨rfl, hinv⟩
  | cons r rest ih =>
    intro ctr acc hinv
    rw [List.foldl_cons, List.map_cons, List.foldl_cons]
    by_cases hmem : extractSpan text r ∈ acc.map Prod.fst
    · have hsome : (acc.lookup (extractSpan text r)).isSome = true :=
        (lookup_isSome_iff _ _).mpr hmem
      rw [show spanStep gen text (ctr, acc) r = (ctr, acc) from by simp [spanStep, hsome]]
      have hne : ¬ extractSpan text r = o₀ := fun he => hinv (he ▸ hmem)
      rw [if_neg hne, if_pos hmem]
      exact ih ctr acc hinv
    · have hlk : (acc.lookup (extractSpan text r)).isSome = false := by
        rw [← Bool.not_eq_true]
        exact fun hc => hmem ((lookup_isSome_iff _ _).mp hc)
      by_cases ho : extractSpan text r = o₀
      · have hstep : spanStep gen text (ctr, acc) r = (ctr + 3, acc) := by
          simp only [spanStep, hlk, Bool.false_eq_true, if_false]
          rw [ho, tryGenerate_none gen ctr o₀ r.entity_type (fun n => hfail n r.entity_type)]
        rw [hstep, if_pos ho]
        exact ih (ctr + 3) acc hinv
      · obtain ⟨g, hg⟩ :=
          Option.isSome_iff_exists.mp (hsucc ctr (extractSpan text r) r.entity_type ho)
        have hstep : spanStep gen text (ctr, acc) r =
            (ctr + 1, acc ++ [(extractSpan text r, g)]) := by
          simp [spanStep, hlk, tryGenerate, hg]
        have hinv' : o₀ ∉ (acc ++ [(extractSpan text r, g)]).map Prod.fst := by
          simp only [List.map_append, List.map_cons, List.map_nil, List.mem_append,
            List.mem_singleton]
          rintro (hc | hc)
          · exact hinv hc
          · exact ho hc.symm
        rw [hstep, if_neg ho, if_neg hmem]
        have hih := ih (ctr + 1) (acc ++ [(extractSpan text r, g)]) hinv'
        refine ⟨?_, hih.2⟩
        rw [hih.1]
        congr 1
        simp

lemma mem_skipfold (o₀ : String) :
    ∀ (l acc : List String) (o : String), o ≠ o₀ → (o ∈ acc ∨ o ∈ l) →
      o ∈ l.foldl (fun a x => if x = o₀ then a else if x ∈ a then a else a ++ [x]) acc := by
  intro l
  induction l with
  | nil =>
    intro acc o _ hm
    rcases hm with h | h
    · exact h
    · simp at h
  | cons x rest ih =>
    intro acc o hne hm
    rw [List.foldl_cons]
    have hsub : ∀ y, y ∈ acc →
        y ∈ (if x = o₀ then acc else if x ∈ acc then acc else acc ++ [x]) := by
      intro y hy
      by_cases h1 : x = o₀
      · simpa [h1] using hy
      · by_cases h2 : x ∈ acc
        · simpa [h1, h2] using hy
        · simp [h1, h2, hy]
    rcases hm with h | h
    · exact ih _ o hne (Or.inl (hsub o h))
    · rcases List.mem_cons.mp h with h' | h'
      · subst h'
        apply ih _ o hne
        left
        by_cases h2 : o ∈ acc
        · exact hsub o h2
        · simp [hne, h2]
      · exact ih _ o hne (Or.inr h')

/-- C7: generation is attempted at most 3 times per span (the retry loop
consults exactly the attempt indices `c`, `c+1`, `c+2`); when every attempt
for a particular original fails, that original is skipped — it gets no mapping
entry and no CSV row — while every other detected original is still processed,
and `anonymize_text` still returns successfully. -/
theorem C7_bounded_retry_skip (analyze : String → List RecognizerResult)
    (gen : Nat → String → String → Option String) (σid : Nat → Nat) (ts : String)
    (fs : FS) (input : String) (dir : FPath) (nameOpt : Option String) (o₀ : String)
    (hfail : ∀ n et, gen n o₀ et = none)
    (hsucc : ∀ n o et, o ≠ o₀ → (gen n o et).isSome = true)
    (h : hasFile fs (strToPath input) = false) :
    (∀ (g₁ g₂ : Nat → String → String → Option String) (c : Nat) (o et : String),
      g₁ c o et = g₂ c o et → g₁ (c + 1) o et = g₂ (c + 1) o et →
      g₁ (c + 2) o et = g₂ (c + 2) o et →
      tryGenerate g₁ c o et = tryGenerate g₂ c o et) ∧
    o₀ ∉ (sessionPairs gen input (analyze input)).map Prod.fst ∧
    (∀ o, o ∈ (analyze input).map (extractSpan input) → o ≠ o₀ →
      o ∈ (sessionPairs gen input (analyze input)).map Prod.fst) ∧
    (anonymize analyze gen σid ts allW fs input dir nameOpt).2 =
      Except.ok
        (anonPathOf dir ts
          (sanitizeName (pyOrName nameOpt ("no_filename_provided_" ++ generate_unique_id σid)))
          (generate_unique_id σid),
         csvPathOf dir ts
          (sanitizeName (pyOrName nameOpt ("no_filename_provided_" ++ generate_unique_id σid)))
          (generate_unique_id σid)) := by
  have haux := sessionPairs_skip_aux gen o₀ input hfail hsucc (analyze input) 0 [] (by simp)
  refine ⟨?_, haux.2, ?_, ?_⟩
  · intro g₁ g₂ c o et h1 h2 h3
    unfold tryGenerate
    rw [h1, h2, h3]
  · intro o hdet hne
    have hk : (sessionPairs gen input (analyze input)).map Prod.fst =
        ((analyze input).map (extractSpan input)).foldl
          (fun l o => if o = o₀ then l else if o ∈ l then l else l ++ [o]) [] := haux.1
    rw [hk]
    exact mem_skipfold o₀ _ [] o hne (Or.inr hdet)
  · rw [anonymize_notfile_ok analyze gen σid ts fs input dir nameOpt h]
    rfl

/-- Witness for C7: in `ab cd` generation fails on every attempt for `ab`
and succeeds for `cd`; `ab` is skipped, `cd` is processed, the call returns
successfully. -/
theorem C7_witness :
    "ab" ∉ (sessionPairs (fun _ o _ => if o = "ab" then none else some "ZZ") "ab cd"
      [⟨0, 2, "PERSON"⟩, ⟨3, 5, "PERSON"⟩]).map Prod.fst ∧
    "cd" ∈ (sessionPairs (fun _ o _ => if o = "ab" then none else some "ZZ") "ab cd"
      [⟨0, 2, "PERSON"⟩, ⟨3, 5, "PERSON"⟩]).map Prod.fst ∧
    (anonymize (fun t => if t = "ab cd" then [⟨0, 2, "PERSON"⟩, ⟨3, 5, "PERSON"⟩] else [])
      (fun _ o _ => if o = "ab" then none else some "ZZ") (fun _ => 0) "T" allW emptyFS
      "ab cd" [] (some "n")).2 =
      Except.ok (["anonymization_T_aaaaaaaaaa", "anonymized_n_aaaaaaaaaa.txt"],
        ["anonymization_T_aaaaaaaaaa", "sensitive_data_n_aaaaaaaaaa.csv"]) := by
  obtain ⟨_, h2, h3, h4⟩ := C7_bounded_retry_skip
    (fun t => if t = "ab cd" then [⟨0, 2, "PERSON"⟩, ⟨3, 5, "PERSON"⟩] else [])
    (fun _ o _ => if o = "ab" then none else some "ZZ") (fun _ => 0) "T" emptyFS
    "ab cd" [] (some "n") "ab" (fun _ _ => rfl)
    (fun n o et hne => by simp [hne]) (by decide)
  refine ⟨h2, ?_, ?_⟩
  · exact h3 "cd" (by decide) (by decide)
  · rw [h4]
    decide

lemma getD_append_len (l₁ l₂ : List Char) (d : Char) :
    (l₁ ++ l₂).getD l₁.length d = l₂.getD 0 d := by
  induction l₁ with
  | nil => rfl
  | cons c rest ih => simpa using ih

lemma drop_append_len_succ (l₁ : List Char) (c : Char) (l₂ : List Char) :
    (l₁ ++ c :: l₂).drop (l₁.length + 1) = l₂ := by
  rw [← List.drop_drop, List.drop_left]
  rfl

lemma email_format_of (l8 l6 : List Char) (h8 : l8.length = 8) (h6 : l6.length = 6)
    (ha : ∀ c ∈ l8, c.isLower = true) (hb : ∀ c ∈ l6, c.isLower = true) :
    isEmailFormat (String.mk (l8 ++ '@' :: (l6 ++ ".com".data))) = true := by
  unfold isEmailFormat
  simp only [Bool.and_eq_true, beq_iff_eq, List.all_eq_true]
  refine ⟨⟨⟨⟨?_, ?_⟩, ?_⟩, ?_⟩, ?_⟩
  · simp [List.length_append, h8, h6]
  · intro c hc
    rw [show (8 : Nat) = l8.length from h8.symm, List.take_left] at hc
    exact ha c hc
  · rw [show (8 : Nat) = l8.length from h8.symm, getD_append_len]
    rfl
  · intro c hc
    rw [show (9 : Nat) = l8.length + 1 from by omega, drop_append_len_succ,
      show (6 : Nat) = l6.length from h6.symm, List.take_left] at hc
    exact hb c hc
  · rw [show (15 : Nat) = (l8.length + 1) + 6 from by omega, ← List.drop_drop,
      drop_append_len_succ, show (6 : Nat) = l6.length from h6.symm, List.drop_left]

lemma ssn_format_of (d3 d2 d4 : List Char) (h3 : d3.length = 3) (h2 : d2.length = 2)
    (h4 : d4.length = 4) (ha : ∀ c ∈ d3, c.isDigit = true)
    (hb : ∀ c ∈ d2, c.isDigit = true) (hc : ∀ c ∈ d4, c.isDigit = true) :
    isSSNFormat (String.mk (d3 ++ '-' :: (d2 ++ '-' :: d4))) = true := by
  unfold isSSNFormat
  simp only [Bool.and_eq_true, beq_iff_eq, List.all_eq_true]
  refine ⟨⟨⟨⟨⟨?_, ?_⟩, ?_⟩, ?_⟩, ?_⟩, ?_⟩
  · simp [List.length_append, h3, h2, h4]
  · intro c hcm
    rw [show (3 : Nat) = d3.length from h3.symm, List.take_left] at hcm
    exact ha c hcm
  · rw [show (3 : Nat) = d3.length from h3.symm, getD_append_len]
    rfl
  · intro c hcm
    rw [show (4 : Nat) = d3.length + 1 from by omega, drop_append_len_succ,
      show (2 : Nat) = d2.length from h2.symm, List.take_left] at hcm
    exact hb c hcm
  · rw [show d3 ++ '-' :: (d2 ++ '-' :: d4) = (d3 ++ '-' :: d2) ++ '-' :: d4 from by simp,
      show (6 : Nat) = (d3 ++ '-' :: d2).length from by simp [h3, h2], getD_append_len]
    rfl
  · intro c hcm
    rw [show (7 : Nat) = (d3.length + 1) + (d2.length + 1) from by omega,
      ← List.drop_drop, drop_append_len_succ, drop_append_len_succ] at hcm
    have hlen : (d4.take 4) = d4 := by rw [← h4]; exact List.take_length ..
    rw [hlen] at hcm
    exact hc c hcm

lemma mirrorChars_spec (σ : Nat → Nat) :
    ∀ (l : List Char) (k : Nat),
      (mirrorChars σ k l).length = l.length ∧
      ∀ i, i < l.length →
        ((l.getD i ' ').isAlpha = true →
          ((mirrorChars σ k l).getD i ' ').isAlpha = true) ∧
        ((l.getD i ' ').isAlpha = false → (l.getD i ' ').isDigit = true →
          ((mirrorChars σ k l).getD i ' ').isDigit = true) ∧
        ((l.getD i ' ').isAlpha = false → (l.getD i ' ').isDigit = false →
          (mirrorChars σ k l).getD i ' ' = l.getD i ' ') := by
  intro l
  induction l with
  | nil =>
    intro k
    exact ⟨rfl, fun i hi => absurd hi (by simp)⟩
  | cons c rest ih =>
    intro k
    have halpha : ∀ x ∈ asciiLetters, x.isAlpha = true := by decide
    have hdig : ∀ x ∈ digitChars, x.isDigit = true := by decide
    by_cases hc : c.isAlpha = true
    · have hmc : mirrorChars σ k (c :: rest) =
          asciiLetters.getD (σ k % asciiLetters.length) 'a' :: mirrorChars σ (k + 1) rest := by
        simp [mirrorChars, hc]
      rw [hmc]
      refine ⟨by simp [(ih (k + 1)).1], ?_⟩
      intro i hi
      cases i with
      | zero =>
        refine ⟨fun _ => ?_, fun h1 _ => ?_, fun h1 _ => ?_⟩
        · exact halpha _ (getD_mod_mem asciiLetters (σ k) 'a' (by decide))
        · have h1' : c.isAlpha = false := h1
          exact absurd hc (by simp [h1'])
        · have h1' : c.isAlpha = false := h1
          exact absurd hc (by simp [h1'])
      | succ i =>
        exact (ih (k + 1)).2 i (by simpa using hi)
    · by_cases hd : c.isDigit = true
      · have hmc : mirrorChars σ k (c :: rest) =
            digitChars.getD (σ k % digitChars.length) '0' :: mirrorChars σ (k + 1) rest := by
          simp [mirrorChars, hc, hd]
        rw [hmc]
        refine ⟨by simp [(ih (k + 1)).1], ?_⟩
        intro i hi
        cases i with
        | zero =>
          refine ⟨fun h1 => ?_, fun _ _ => ?_, fun _ h2 => ?_⟩
          · exact absurd (h1 : c.isAlpha = true) hc
          · exact hdig _ (getD_mod_mem digitChars (σ k) '0' (by decide))
          · have h2' : c.isDigit = false := h2
            exact absurd hd (by simp [h2'])
        | succ i =>
          exact (ih (k + 1)).2 i (by simpa using hi)
      · have hmc : mirrorChars σ k (c :: rest) = c :: mirrorChars σ k rest := by
          simp [mirrorChars, hc, hd]
        rw [hmc]
        refine ⟨by simp [(ih k).1], ?_⟩
        intro i hi
        cases i with
        | zero =>
          exact ⟨fun h1 => absurd (h1 : c.isAlpha = true) hc,
            fun _ h2 => absurd (h2 : c.isDigit = true) hd, fun _ _ => rfl⟩
        | succ i =>
          exact (ih k).2 i (by simpa using hi)

/-- C4: `_generate_fake_data` returns, for `EMAIL_ADDRESS`, a string matching
`^[a-z]{8}@[a-z]{6}\.com$`; for `US_SSN`, a string matching
`^\d{3}-\d{2}-\d{4}$`; for every other entity type, the original unchanged
when it equals `email` case-insensitively, and otherwise a string of the same
length in which each position keeps the original character's class (random
letter for a letter, random digit for a non-letter digit, the character itself
otherwise). -/
theorem C4_fake_data_shape (σ : Nat → Nat) (original et : String) :
    (et = "EMAIL_ADDRESS" → isEmailFormat (generate_fake_data σ original et) = true) ∧
    (et = "US_SSN" → isSSNFormat (generate_fake_data σ original et) = true) ∧
    (et ≠ "EMAIL_ADDRESS" → et ≠ "US_SSN" →
      (lowerStr original = "email" → generate_fake_data σ original et = original) ∧
      (lowerStr original ≠ "email" →
        (generate_fake_data σ original et).length = original.length ∧
        ∀ i, i < original.data.length →
          ((original.data.getD i ' ').isAlpha = true →
            ((generate_fake_data σ original et).data.getD i ' ').isAlpha = true) ∧
          ((original.data.getD i ' ').isAlpha = false →
            (original.data.getD i ' ').isDigit = true →
            ((generate_fake_data σ original et).data.getD i ' ').isDigit = true) ∧
          ((original.data.getD i ' ').isAlpha = false →
            (original.data.getD i ' ').isDigit = false →
            (generate_fake_data σ original et).data.getD i ' ' =
              original.data.getD i ' '))) := by
  have hlower : ∀ x ∈ asciiLowercase, x.isLower = true := by decide
  have hdigit : ∀ x ∈ digitChars, x.isDigit = true := by decide
  refine ⟨?_, ?_, ?_⟩
  · intro he
    rw [he]
    show isEmailFormat (String.mk _) = true
    apply email_format_of
    · exact drawsFrom_length σ 0 asciiLowercase 8
    · exact drawsFrom_length σ 8 asciiLowercase 6
    · exact fun c hc => hlower c (drawsFrom_mem (by decide) c hc)
    · exact fun c hc => hlower c (drawsFrom_mem (by decide) c hc)
  · intro he
    rw [he]
    show isSSNFormat (String.mk _) = true
    apply ssn_format_of
    · exact drawsFrom_length σ 0 digitChars 3
    · exact drawsFrom_length σ 3 digitChars 2
    · exact drawsFrom_length σ 5 digitChars 4
    · exact fun c hc => hdigit c (drawsFrom_mem (by decide) c hc)
    · exact fun c hc => hdigit c (drawsFrom_mem (by decide) c hc)
    · exact fun c hc => hdigit c (drawsFrom_mem (by decide) c hc)
  · intro he1 he2
    constructor
    · intro hl
      simp [generate_fake_data, he1, he2, hl]
    · intro hl
      have hgen : generate_fake_data σ original et =
          String.mk (mirrorChars σ 0 original.data) := by
        simp [generate_fake_data, he1, he2, hl]
      rw [hgen]
      have := mirrorChars_spec σ original.data 0
      exact ⟨this.1, this.2⟩

/-- Witness for C4 at concrete inputs for each branch. -/
theorem C4_witness :
    isEmailFormat (generate_fake_data (fun i => i) "whatever" "EMAIL_ADDRESS") = true ∧
    isSSNFormat (generate_fake_data (fun i => i) "123-45-6789" "US_SSN") = true ∧
    generate_fake_data (fun i => i) "EMAIL" "PERSON" = "EMAIL" ∧
    (generate_fake_data (fun i => i) "a1-" "PERSON").length = ("a1-" : String).length ∧
    ((generate_fake_data (fun i => i) "a1-" "PERSON").data.getD 0 ' ').isAlpha = true ∧
    ((generate_fake_data (fun i => i) "a1-" "PERSON").data.getD 1 ' ').isDigit = true ∧
    (generate_fake_data (fun i => i) "a1-" "PERSON").data.getD 2 ' ' = '-' := by
  obtain ⟨he, hs, hg⟩ := C4_fake_data_shape (fun i => i) "whatever" "EMAIL_ADDRESS"
  obtain ⟨he2, hs2, hg2⟩ := C4_fake_data_shape (fun i => i) "123-45-6789" "US_SSN"
  obtain ⟨_, _, hg3⟩ := C4_fake_data_shape (fun i => i) "EMAIL" "PERSON"
  obtain ⟨_, _, hg4⟩ := C4_fake_data_shape (fun i => i) "a1-" "PERSON"
  obtain ⟨hcase, _⟩ := hg3 (by decide) (by decide)
  obtain ⟨_, hmir⟩ := hg4 (by decide) (by decide)
  obtain ⟨hlen, hpos⟩ := hmir (by decide)
  refine ⟨he rfl, hs2 rfl, hcase (by decide), hlen, ?_, ?_, ?_⟩
  · exact (hpos 0 (by decide)).1 (by decide)
  · exact (hpos 1 (by decide)).2.1 (by decide) (by decide)
  · rw [(hpos 2 (by decide)).2.2 (by decide) (by decide)]
    decide

lemma data_foldl_strReplace₁ :
    ∀ (pairs : List (String × String)) (s : String),
      (pairs.foldl (fun t p => strReplace t p.1 p.2) s).data =
        (pairs.map (fun p => (p.1.data, p.2.data))).foldl
          (fun t x => replaceAll t x.1 x.2) s.data := by
  intro pairs
  induction pairs with
  | nil => intro s; rfl
  | cons p ps ih =>
    intro s
    rw [List.foldl_cons, List.map_cons, List.foldl_cons]
    exact ih (strReplace s p.1 p.2)

lemma data_foldl_strReplace₂ :
    ∀ (pairs : List (String × String)) (s : String),
      (pairs.foldl (fun t p => strReplace t p.2 p.1) s).data =
        (pairs.map (fun p => (p.1.data, p.2.data))).foldl
          (fun t x => replaceAll t x.2 x.1) s.data := by
  intro pairs
  induction pairs with
  | nil => intro s; rfl
  | cons p ps ih =>
    intro s
    rw [List.foldl_cons, List.map_cons, List.foldl_cons]
    exact ih (strReplace s p.2 p.1)

lemma str_data_ne_nil {s : String} (h : s ≠ "") : s.data ≠ [] := by
  intro hd
  apply h
  apply String.ext
  rw [hd]

/-- String-level round trip, by transport of `foldl_replace_roundtrip`. -/
lemma string_roundtrip (pairs : List (String × String)) (s : String)
    (h1 : ∀ p ∈ pairs, p.1 ≠ "") (h2 : ∀ p ∈ pairs, p.2 ≠ "")
    (hf : ∀ p ∈ pairs, charsDisjL p.2.data s.data)
    (hpw : List.Pairwise (fun p q : String × String => charsDisjL p.2.data q.2.data) pairs)
    (hog : ∀ p ∈ pairs, ∀ q ∈ pairs, charsDisjL p.1.data q.2.data) :
    pairs.foldl (fun t p => strReplace t p.2 p.1)
      (pairs.foldl (fun t p => strReplace t p.1 p.2) s) = s := by
  apply String.ext
  rw [data_foldl_strReplace₂, data_foldl_strReplace₁]
  apply foldl_replace_roundtrip (pairs.map (fun p => (p.1.data, p.2.data))) s.data
  · intro p hp
    obtain ⟨q, hq, rfl⟩ := List.mem_map.mp hp
    exact str_data_ne_nil (h1 q hq)
  · intro p hp
    obtain ⟨q, hq, rfl⟩ := List.mem_map.mp hp
    exact str_data_ne_nil (h2 q hq)
  · intro p hp
    obtain ⟨q, hq, rfl⟩ := List.mem_map.mp hp
    exact hf q hq
  · rw [List.pairwise_map]
    exact hpw
  · intro p hp q hq
    obtain ⟨p', hp', rfl⟩ := List.mem_map.mp hp
    obtain ⟨q', hq', rfl⟩ := List.mem_map.mp hq
    exact hog p' hp' q' hq'

lemma pwDisjB_pairwise :
    ∀ l : List String, pwDisjB l = true →
      List.Pairwise (fun a b : String => charsDisjL a.data b.data) l := by
  intro l
  induction l with
  | nil => intro _; exact List.Pairwise.nil
  | cons g rest ih =>
    intro h
    rw [show pwDisjB (g :: rest) = (rest.all (fun g' => charsDisjB g g') && pwDisjB rest)
      from rfl, Bool.and_eq_true] at h
    exact List.Pairwise.cons
      (fun b hb => charsDisjB_eq_true (List.all_eq_true.mp h.1 b hb)) (ih h.2)

lemma extract_chars (text : String) (r : RecognizerResult) :
    ∀ c ∈ (extractSpan text r).data, c ∈ text.data := by
  intro c hc
  have h1 : c ∈ text.data.drop r.start :=
    List.take_subset _ _ hc
  exact List.drop_subset _ _ h1

lemma extract_ne_empty (text : String) (r : RecognizerResult)
    (h1 : r.start < r.stop) (h2 : r.stop ≤ text.length) :
    extractSpan text r ≠ "" := by
  intro he
  have hd : ((text.data.drop r.start).take (r.stop - r.start)).length = 0 :=
    congrArg List.length (congrArg String.data he)
  rw [List.length_take, List.length_drop] at hd
  have hlen : text.data.length = text.length := rfl
  rw [hlen] at hd
  omega

lemma sessionPairs_fst_extract (gen : Nat → String → String → Option String)
    (text : String) :
    ∀ (spans : List RecognizerResult) (ctr : Nat) (acc : List (String × String)),
      ∀ p ∈ (spans.foldl (spanStep gen text) (ctr, acc)).2,
        p ∈ acc ∨ ∃ r ∈ spans, p.1 = extractSpan text r := by
  intro spans
  induction spans with
  | nil =>
    intro ctr acc p hp
    exact Or.inl hp
  | cons r rest ih =>
    intro ctr acc p hp
    rw [List.foldl_cons] at hp
    have hstep : ∃ c', spanStep gen text (ctr, acc) r = (c', acc) ∨
        ∃ g, spanStep gen text (ctr, acc) r = (c', acc ++ [(extractSpan text r, g)]) := by
      unfold spanStep
      by_cases hlk : ((ctr, acc).2.lookup (extractSpan text r)).isSome = true
      · rw [if_pos hlk]
        exact ⟨ctr, Or.inl rfl⟩
      · rw [if_neg hlk]
        cases htry : tryGenerate gen ctr (extractSpan text r) r.entity_type with
        | mk c' og =>
          cases og with
          | none => exact ⟨c', Or.inl rfl⟩
          | some g => exact ⟨c', Or.inr ⟨g, rfl⟩⟩
    obtain ⟨c', hc'⟩ := hstep
    rcases hc' with he | ⟨g, he⟩
    · rw [he] at hp
      rcases ih c' acc p hp with hin | ⟨r', hr', hpe⟩
      · exact Or.inl hin
      · exact Or.inr ⟨r', by simp [hr'], hpe⟩
    · rw [he] at hp
      rcases ih c' _ p hp with hin | ⟨r', hr', hpe⟩
      · rcases List.mem_append.mp hin with h' | h'
        · exact Or.inl h'
        · rw [List.mem_singleton] at h'
          exact Or.inr ⟨r, by simp, by rw [h']⟩
      · exact Or.inr ⟨r', by simp [hr'], hpe⟩

lemma upsert_fold_aux :
    ∀ (ps : List (String × String)) (m : List (String × String)),
      (∀ p ∈ ps, p.2 ∉ m.map Prod.fst) → (ps.map Prod.snd).Nodup →
      (ps.map (fun p => [p.1, p.2])).foldl
        (fun acc row => dictUpsert acc (row.getD 1 "") (row.getD 0 "")) m =
        m ++ ps.map (fun p => (p.2, p.1)) := by
  intro ps
  induction ps with
  | nil => intro m _ _; simp
  | cons p ps ih =>
    intro m hnotin hnd
    rw [List.map_cons, List.foldl_cons]
    have hrow1 : ([p.1, p.2].getD 1 "") = p.2 := rfl
    have hrow0 : ([p.1, p.2].getD 0 "") = p.1 := rfl
    rw [hrow1, hrow0]
    have hfresh : (m.lookup p.2).isSome = false := by
      rw [← Bool.not_eq_true]
      intro hc
      exact hnotin p (by simp) ((lookup_isSome_iff _ _).mp hc)
    rw [show dictUpsert m p.2 p.1 = m ++ [(p.2, p.1)] from by
      simp [dictUpsert, hfresh]]
    rw [List.map_cons, List.nodup_cons] at hnd
    rw [ih (m ++ [(p.2, p.1)]) ?_ hnd.2]
    · simp
    · intro q hq
      simp only [List.map_append, List.map_cons, List.map_nil, List.mem_append,
        List.mem_singleton]
      rintro (hc | hc)
      · exact hnotin q (by simp [hq]) hc
      · exact hnd.1 (hc ▸ List.mem_map.mpr ⟨q, hq, rfl⟩)

/-- Reading back the CSV table written for the session mapping yields the
reversed (generated → original) dictionary, row order preserved, when the
generated values are pairwise distinct. -/
lemma readCsvPairs_table (pairs : List (String × String))
    (hnd : (pairs.map Prod.snd).Nodup) :
    readCsvPairs (FileData.table csvHeader (pairs.map (fun p => [p.1, p.2]))) =
      some (pairs.map (fun p => (p.2, p.1))) := by
  have hred : readCsvPairs (FileData.table csvHeader (pairs.map (fun p => [p.1, p.2]))) =
      some ((pairs.map (fun p => [p.1, p.2])).foldl
        (fun m row => dictUpsert m (row.getD 1 "") (row.getD 0 "")) []) := rfl
  rw [hred, upsert_fold_aux pairs [] (by simp) hnd]
  rfl

/-- The success path of `deanonymize_text`, given the three reads succeed. -/
lemma deanonymize_success (fs : FS) (p : FPath) (d : FPath) (csvData : FileData)
    (gmap : List (String × String)) (content : String)
    (h1 : fs (mappingPathOf p) = some csvData)
    (h2 : readCsvPairs csvData = some gmap)
    (h3 : fs p = some (FileData.text content)) :
    deanonymize fs p d =
      (fsErase
        (fsWrite fs
          (p.dropLast ++ ["deanonymized_" ++ (parseStem p).1 ++ "_" ++ (parseStem p).2 ++ ".txt"])
          (FileData.text (gmap.foldl (fun t q => strReplace t q.1 q.2) content)))
        (mappingPathOf p),
       Except.ok
        (p.dropLast ++
          ["deanonymized_" ++ (parseStem p).1 ++ "_" ++ (parseStem p).2 ++ ".txt"])) := by
  simp only [deanonymize, h1, h2, h3]

/-- C1 (amended): the anonymize/deanonymize round trip restores the input
text exactly, for literal text input with in-range non-empty detected spans
and no substring-overlap among detected originals, PROVIDED additionally that
generation always succeeds and every generated value is non-empty and uses
only characters that occur neither in the input text nor in any other
generated value. (Without the additional freshness condition the round trip
can corrupt the text — see the counterexample.) -/
theorem C1_roundtrip_fresh (analyze : String → List RecognizerResult)
    (gen : Nat → String → String → Option String) (σid : Nat → Nat) (ts : String)
    (fs : FS) (input : String) (dir : FPath) (nameOpt : Option String) (d : FPath)
    (hfile : hasFile fs (strToPath input) = false)
    (hgen : ∀ n o et, (gen n o et).isSome = true)
    (hspans : ∀ r ∈ analyze input, r.start < r.stop ∧ r.stop ≤ input.length)
    (hover : noSubOverlap ((analyze input).map (extractSpan input)) = true)
    (hgne : ∀ p ∈ sessionPairs gen input (analyze input), p.2 ≠ "")
    (hfresh : ∀ p ∈ sessionPairs gen input (analyze input), charsDisjB p.2 input = true)
    (hpw : pwDisjB ((sessionPairs gen input (analyze input)).map Prod.snd) = true) :
    (anonymize analyze gen σid ts allW fs input dir nameOpt).2 =
      Except.ok
        (anonPathOf dir ts
          (sanitizeName (pyOrName nameOpt ("no_filename_provided_" ++ generate_unique_id σid)))
          (generate_unique_id σid),
         csvPathOf dir ts
          (sanitizeName (pyOrName nameOpt ("no_filename_provided_" ++ generate_unique_id σid)))
          (generate_unique_id σid)) ∧
    (deanonymize (anonymize analyze gen σid ts allW fs input dir nameOpt).1
        (anonPathOf dir ts
          (sanitizeName (pyOrName nameOpt ("no_filename_provided_" ++ generate_unique_id σid)))
          (generate_unique_id σid)) d).2 =
      Except.ok (outDirOf dir ts (generate_unique_id σid) ++
        ["deanonymized_" ++
          sanitizeName (pyOrName nameOpt ("no_filename_provided_" ++ generate_unique_id σid)) ++
          "_" ++ generate_unique_id σid ++ ".txt"]) ∧
    (deanonymize (anonymize analyze gen σid ts allW fs input dir nameOpt).1
        (anonPathOf dir ts
          (sanitizeName (pyOrName nameOpt ("no_filename_provided_" ++ generate_unique_id σid)))
          (generate_unique_id σid)) d).1
      (outDirOf dir ts (generate_unique_id σid) ++
        ["deanonymized_" ++
          sanitizeName (pyOrName nameOpt ("no_filename_provided_" ++ generate_unique_id σid)) ++
          "_" ++ generate_unique_id σid ++ ".txt"]) =
      some (FileData.text input) := by
  have hanon := anonymize_notfile_ok analyze gen σid ts fs input dir nameOpt hfile
  set uid := generate_unique_id σid with huid
  set B := sanitizeName (pyOrName nameOpt ("no_filename_provided_" ++ uid)) with hB
  set pairs := sessionPairs gen input (analyze input) with hpairs
  set anonText := pairs.foldl (fun t p => strReplace t p.1 p.2) input with hAT
  -- parse facts for the anonymized path
  have hpstem : parseStem (anonPathOf dir ts B uid) = (B, uid) :=
    parseStem_eq (outDirOf dir ts uid) B uid (uid_no_underscore σid)
  have hmap : mappingPathOf (anonPathOf dir ts B uid) = csvPathOf dir ts B uid := by
    show (anonPathOf dir ts B uid).dropLast ++
      ["sensitive_data_" ++ (parseStem (anonPathOf dir ts B uid)).1 ++ "_" ++
        (parseStem (anonPathOf dir ts B uid)).2 ++ ".csv"] = csvPathOf dir ts B uid
    rw [hpstem]
    show (outDirOf dir ts uid ++ ["anonymized_" ++ B ++ "_" ++ uid ++ ".txt"]).dropLast ++ _ = _
    rw [List.dropLast_concat]
    rfl
  -- the filesystem after anonymize, at the two artifact paths
  have hfs₁csv : (anonymize analyze gen σid ts allW fs input dir nameOpt).1
      (csvPathOf dir ts B uid) =
      some (FileData.table csvHeader (pairs.map (fun p => [p.1, p.2]))) := by
    rw [hanon]
    have hnm := csvname_ne_anonname B uid B uid
    simp only [csvPathOf, anonPathOf, outDirOf, List.append_assoc]
    simp [fsWrite, hnm]
  have hfs₁anon : (anonymize analyze gen σid ts allW fs input dir nameOpt).1
      (anonPathOf dir ts B uid) = some (FileData.text anonText) := by
    rw [hanon]
    simp only [anonPathOf, outDirOf, List.append_assoc]
    simp [fsWrite]
  -- pairwise-distinct generated values
  have hpw' : List.Pairwise (fun a b : String => charsDisjL a.data b.data)
      (pairs.map Prod.snd) := pwDisjB_pairwise _ hpw
  have hsnd : (pairs.map Prod.snd).Nodup := by
    apply List.Pairwise.imp_of_mem ?_ hpw'
    intro a b ha _ hdisj
    obtain ⟨p, hp, rfl⟩ := List.mem_map.mp ha
    intro he
    exact charsDisjL_ne hdisj (str_data_ne_nil (hgne p hp)) (congrArg String.data he)
  -- originals are non-empty extracts of the input
  have hfst : ∀ p ∈ pairs, ∃ r ∈ analyze input, p.1 = extractSpan input r := by
    intro p hp
    rcases sessionPairs_fst_extract gen input (analyze input) 0 [] p hp with hin | hex
    · simp at hin
    · exact hex
  have h1 : ∀ p ∈ pairs, p.1 ≠ "" := by
    intro p hp
    obtain ⟨r, hr, hpe⟩ := hfst p hp
    rw [hpe]
    exact extract_ne_empty input r (hspans r hr).1 (hspans r hr).2
  -- the deanonymize success run
  have hdean := deanonymize_success
    ((anonymize analyze gen σid ts allW fs input dir nameOpt).1)
    (anonPathOf dir ts B uid) d
    (FileData.table csvHeader (pairs.map (fun p => [p.1, p.2])))
    (pairs.map (fun p => (p.2, p.1))) anonText
    (by rw [hmap]; exact hfs₁csv) (readCsvPairs_table pairs hsnd) hfs₁anon
  -- the restored text
  have hrt : (pairs.map (fun p => (p.2, p.1))).foldl
      (fun t q => strReplace t q.1 q.2) anonText = input := by
    rw [List.foldl_map]
    rw [hAT]
    apply string_roundtrip pairs input h1 hgne
    · intro p hp
      exact charsDisjB_eq_true (hfresh p hp)
    · have hstep := List.pairwise_map.mp hpw'
      exact hstep
    · intro p hp q hq
      intro c hc1 hc2
      obtain ⟨r, hr, hpe⟩ := hfst p hp
      have hcin : c ∈ input.data := by
        rw [hpe] at hc1
        exact extract_chars input r c hc1
      exact charsDisjB_eq_true (hfresh q hq) c hc2 hcin
  -- assemble the three conjuncts
  have hdpath : (anonPathOf dir ts B uid).dropLast ++
      ["deanonymized_" ++ (parseStem (anonPathOf dir ts B uid)).1 ++ "_" ++
        (parseStem (anonPathOf dir ts B uid)).2 ++ ".txt"] =
      outDirOf dir ts uid ++ ["deanonymized_" ++ B ++ "_" ++ uid ++ ".txt"] := by
    rw [hpstem]
    show (outDirOf dir ts uid ++ ["anonymized_" ++ B ++ "_" ++ uid ++ ".txt"]).dropLast ++ _ = _
    rw [List.dropLast_concat]
  refine ⟨?_, ?_, ?_⟩
  · rw [hanon]
    rfl
  · rw [hdean]
    show Except.ok _ = Except.ok _
    rw [hdpath]
  · rw [hdean]
    show (fsErase (fsWrite _ _ _) _) _ = _
    have hne1 : outDirOf dir ts uid ++ ["deanonymized_" ++ B ++ "_" ++ uid ++ ".txt"] ≠
        mappingPathOf (anonPathOf dir ts B uid) := by
      rw [hmap]
      exact concat_ne_of_last _ (deanname_ne_csvname B uid B uid)
    rw [show (anonPathOf dir ts B uid).dropLast ++
      ["deanonymized_" ++ (parseStem (anonPathOf dir ts B uid)).1 ++ "_" ++
        (parseStem (anonPathOf dir ts B uid)).2 ++ ".txt"] =
      outDirOf dir ts uid ++ ["deanonymized_" ++ B ++ "_" ++ uid ++ ".txt"] from hdpath]
    rw [hrt]
    simp [fsErase, fsWrite, hne1]

/-- C1 counterexample: with text `ab`, one detected span `a` (so no
substring-overlap among detected originals), and the real generator whose
random draw produces the letter `b` for the letter `a`, the pipeline
anonymizes `ab` to `bb` and de-anonymizes it to `aa` — not the original text,
also after trimming. The claim's hypothesis does not exclude a generated
value colliding with literal text elsewhere in the document. -/
theorem C1_counterexample :
    noSubOverlap (((fun t => if t = "ab" then ([⟨0, 1, "PERSON"⟩] : List RecognizerResult)
      else []) "ab").map (extractSpan "ab")) = true ∧
    (anonymize (fun t => if t = "ab" then ([⟨0, 1, "PERSON"⟩] : List RecognizerResult) else [])
        (fun _ o et => some (generate_fake_data (fun _ => 1) o et)) (fun _ => 0) "T" allW
        emptyFS "ab" [] (some "n")).2 =
      Except.ok (["anonymization_T_aaaaaaaaaa", "anonymized_n_aaaaaaaaaa.txt"],
        ["anonymization_T_aaaaaaaaaa", "sensitive_data_n_aaaaaaaaaa.csv"]) ∧
    (deanonymize
        (anonymize (fun t => if t = "ab" then ([⟨0, 1, "PERSON"⟩] : List RecognizerResult)
            else [])
          (fun _ o et => some (generate_fake_data (fun _ => 1) o et)) (fun _ => 0) "T" allW
          emptyFS "ab" [] (some "n")).1
        ["anonymization_T_aaaaaaaaaa", "anonymized_n_aaaaaaaaaa.txt"] []).2 =
      Except.ok ["anonymization_T_aaaaaaaaaa", "deanonymized_n_aaaaaaaaaa.txt"] ∧
    (deanonymize
        (anonymize (fun t => if t = "ab" then ([⟨0, 1, "PERSON"⟩] : List RecognizerResult)
            else [])
          (fun _ o et => some (generate_fake_data (fun _ => 1) o et)) (fun _ => 0) "T" allW
          emptyFS "ab" [] (some "n")).1
        ["anonymization_T_aaaaaaaaaa", "anonymized_n_aaaaaaaaaa.txt"] []).1
      ["anonymization_T_aaaaaaaaaa", "deanonymized_n_aaaaaaaaaa.txt"] =
      some (FileData.text "aa") ∧
    trimWs "aa" ≠ trimWs "ab" := by
  decide

/-- Witness for the amended C1 at a concrete fresh generated value `Z`. -/
theorem C1_witness :
    (anonymize (fun t => if t = "ab" then ([⟨0, 1, "PERSON"⟩] : List RecognizerResult) else [])
        (fun _ _ _ => some "Z") (fun _ => 0) "T" allW emptyFS "ab" [] (some "n")).2 =
      Except.ok (["anonymization_T_aaaaaaaaaa", "anonymized_n_aaaaaaaaaa.txt"],
        ["anonymization_T_aaaaaaaaaa", "sensitive_data_n_aaaaaaaaaa.csv"]) ∧
    (deanonymize
        (anonymize (fun t => if t = "ab" then ([⟨0, 1, "PERSON"⟩] : List RecognizerResult)
            else [])
          (fun _ _ _ => some "Z") (fun _ => 0) "T" allW emptyFS "ab" [] (some "n")).1
        ["anonymization_T_aaaaaaaaaa", "anonymized_n_aaaaaaaaaa.txt"] []).1
      ["anonymization_T_aaaaaaaaaa", "deanonymized_n_aaaaaaaaaa.txt"] =
      some (FileData.text "ab") := by
  obtain ⟨h1, h2, h3⟩ := C1_roundtrip_fresh
    (fun t => if t = "ab" then ([⟨0, 1, "PERSON"⟩] : List RecognizerResult) else [])
    (fun _ _ _ => some "Z") (fun _ => 0) "T" emptyFS "ab" [] (some "n") []
    (by decide) (fun _ _ _ => rfl) (by decide) (by decide) (by decide) (by decide) (by decide)
  constructor
  · rw [h1]
    decide
  · rw [show (["anonymization_T_aaaaaaaaaa", "anonymized_n_aaaaaaaaaa.txt"] : FPath) =
      anonPathOf [] "T"
        (sanitizeName (pyOrName (some "n")
          ("no_filename_provided_" ++ generate_unique_id (fun _ => 0))))
        (generate_unique_id (fun _ => 0)) from by decide]
    rw [show (["anonymization_T_aaaaaaaaaa", "deanonymized_n_aaaaaaaaaa.txt"] : FPath) =
      outDirOf [] "T" (generate_unique_id (fun _ => 0)) ++
        ["deanonymized_" ++
          sanitizeName (pyOrName (some "n")
            ("no_filename_provided_" ++ generate_unique_id (fun _ => 0))) ++ "_" ++
          generate_unique_id (fun _ => 0) ++ ".txt"] from by decide]
    exact h3

end AnonVerif
